import Mathlib

/-!
# ctkDICOMIndexer: import loop and DICOMDIR walk

Shallow embedding of `Libs/DICOM/Core/ctkDICOMIndexer.cpp`.

* Qt signals (`progress`, `indexingFilePath`, `foundFilesToIndex`,
  `indexingComplete`) and the call `database.insert(...)` are recorded, in the
  order in which they happen, in an event trace.
* The private member `Canceled` is explicit state.  `cancel()` can only run
  while control is outside the indexer, that is inside a slot connected to one
  of the signals or inside `database.insert`; `CancelRequests` says for each of
  these points whether `cancel()` is called there.
* `int` is a 32-bit two's complement integer; the product `100 * CurrentFileIndex`
  is reduced with `toInt32`, and `/` is truncating division.
* A `DcmDirectoryRecord *` is modelled by the position of the record in the
  catalog tree together with the record found there.
-/

namespace CTK

/-! ## Strings, events, indexer state -/

/-- A `QString`. -/
abbrev QString := String

/-- What the indexer does that is visible from outside: the four signals of
`ctkDICOMIndexer` and the call of `ctkDICOMDatabase::insert`. -/
inductive Event where
  | foundFilesToIndex (count : Int)
  | progress (percent : Int)
  | indexingFilePath (filePath : QString)
  | insert (filePath : QString) (copyFile importMetadata generateThumbnail : Bool)
      (sourceDirectoryName destinationDirectoryName : QString)
  | indexingComplete
  deriving DecidableEq

/-- The private data of the indexer (`ctkDICOMIndexerPrivate`). -/
structure ctkDICOMIndexerPrivate where
  Canceled : Bool
  deriving DecidableEq

/-- The constructor `ctkDICOMIndexerPrivate(o)`: `Canceled(false)`. -/
def ctkDICOMIndexerPrivate.fresh : ctkDICOMIndexerPrivate := ⟨false⟩

/-- The slot `ctkDICOMIndexer::cancel()`: `d->Canceled = true`. -/
def cancel (_d : ctkDICOMIndexerPrivate) : ctkDICOMIndexerPrivate := ⟨true⟩

/-- For every point at which control leaves the indexer: is `cancel()` called
there?  The three per-file points are indexed by the position of the file in the
list handed to `addListOfFiles`. -/
structure CancelRequests where
  onFoundFilesToIndex : Bool
  onProgress : Nat → Bool
  onIndexingFilePath : Nat → Bool
  onInsert : Nat → Bool
  onIndexingComplete : Bool

/-- Is `cancel()` called while the file at position `i` is being processed? -/
def CancelRequests.duringFile (env : CancelRequests) (i : Nat) : Bool :=
  env.onProgress i || env.onIndexingFilePath i || env.onInsert i

/-- Nobody ever calls `cancel()`. -/
def CancelRequests.never : CancelRequests :=
  ⟨false, fun _ => false, fun _ => false, fun _ => false, false⟩

/-- Control is handed to the outside (a signal is emitted or the database is
called); `requested` says whether `cancel()` runs meanwhile. -/
def handOver (requested : Bool) (d : ctkDICOMIndexerPrivate) : ctkDICOMIndexerPrivate :=
  if requested then cancel d else d

/-! ## 32-bit arithmetic -/

/-- The value an `int` holds after a computation whose exact result is `x`
(two's complement, 32 bits). -/
def toInt32 (x : Int) : Int := (x + 2147483648) % 4294967296 - 2147483648

/-- The statement `int percent = ( 100 * CurrentFileIndex ) / listOfFiles.size();`
(a `QStringList` has fewer than `2^31` elements, so the index and the size
themselves are representable). -/
def percentOf (CurrentFileIndex size : Nat) : Int :=
  Int.tdiv (toInt32 (100 * (CurrentFileIndex : Int))) (size : Int)

/-! ## addFile, addListOfFiles -/

/-- The function `ctkDICOMIndexer::addFile`: emits `indexingFilePath(filePath)`, then calls
`database.insert(filePath, !destinationDirectoryName.isEmpty(), true, true,
sourceDirectoryName, destinationDirectoryName)`. -/
def addFile (cancelOnPath cancelOnInsert : Bool)
    (filePath sourceDirectoryName destinationDirectoryName : QString)
    (d : ctkDICOMIndexerPrivate) : ctkDICOMIndexerPrivate × List Event :=
  let d1 := handOver cancelOnPath d
  let d2 := handOver cancelOnInsert d1
  (d2, [Event.indexingFilePath filePath,
        Event.insert filePath (!destinationDirectoryName.isEmpty) true true
          sourceDirectoryName destinationDirectoryName])

/-- The `foreach` loop of `addListOfFiles`, started on the remaining files with
the current value of `CurrentFileIndex`; `size` is `listOfFiles.size()`. -/
def foreachFile (env : CancelRequests) (size : Nat)
    (sourceDirectoryName destinationDirectoryName : QString) :
    List QString → Nat → ctkDICOMIndexerPrivate → ctkDICOMIndexerPrivate × List Event
  | [], _, d => (d, [])
  | filePath :: rest, CurrentFileIndex, d =>
    let percent := percentOf CurrentFileIndex size
    let d1 := handOver (env.onProgress CurrentFileIndex) d
    let r := addFile (env.onIndexingFilePath CurrentFileIndex) (env.onInsert CurrentFileIndex)
      filePath sourceDirectoryName destinationDirectoryName d1
    if r.1.Canceled then
      (r.1, Event.progress percent :: r.2)
    else
      let r2 := foreachFile env size sourceDirectoryName destinationDirectoryName
        rest (CurrentFileIndex + 1) r.1
      (r2.1, Event.progress percent :: (r.2 ++ r2.2))

/-- The function `ctkDICOMIndexer::addListOfFiles`. -/
def addListOfFiles (env : CancelRequests) (listOfFiles : List QString)
    (sourceDirectoryName destinationDirectoryName : QString)
    (d : ctkDICOMIndexerPrivate) : ctkDICOMIndexerPrivate × List Event :=
  let d0 : ctkDICOMIndexerPrivate := { d with Canceled := false }
  let r := foreachFile env listOfFiles.length sourceDirectoryName destinationDirectoryName
    listOfFiles 0 d0
  (handOver env.onIndexingComplete r.1, r.2 ++ [Event.indexingComplete])

/-! ## Reading a trace -/

/-- The values of the `progress` events of a trace, in order. -/
def progressValues : List Event → List Int
  | [] => []
  | Event.progress p :: es => p :: progressValues es
  | _ :: es => progressValues es

/-- The paths passed to `insert`, in order. -/
def insertedPaths : List Event → List QString
  | [] => []
  | Event.insert p _ _ _ _ _ :: es => p :: insertedPaths es
  | _ :: es => insertedPaths es

/-- The paths announced by `indexingFilePath`, in order. -/
def announcedPaths : List Event → List QString
  | [] => []
  | Event.indexingFilePath p :: es => p :: announcedPaths es
  | _ :: es => announcedPaths es

/-- The counts announced by `foundFilesToIndex`, in order. -/
def foundCounts : List Event → List Int
  | [] => []
  | Event.foundFilesToIndex c :: es => c :: foundCounts es
  | _ :: es => foundCounts es

/-- How many `indexingComplete` events a trace has. -/
def completeCount (es : List Event) : Nat := es.count Event.indexingComplete

/-- The three events of one loop iteration: the file at position `i` of a list
of `size` files. -/
def fileEvents (size : Nat) (sourceDirectoryName destinationDirectoryName : QString)
    (i : Nat) (filePath : QString) : List Event :=
  [Event.progress (percentOf i size), Event.indexingFilePath filePath,
   Event.insert filePath (!destinationDirectoryName.isEmpty) true true
     sourceDirectoryName destinationDirectoryName]

/-- The events of consecutive loop iterations over `files`, the first of which
has position `i`. -/
def eventsFrom (size : Nat) (sourceDirectoryName destinationDirectoryName : QString) :
    Nat → List QString → List Event
  | _, [] => []
  | i, p :: ps =>
    fileEvents size sourceDirectoryName destinationDirectoryName i p ++
      eventsFrom size sourceDirectoryName destinationDirectoryName (i + 1) ps

/-! ## The DICOMDIR catalog -/

/-- A directory record of a DICOMDIR (`DcmDirectoryRecord`).  For each
attribute the walk asks for: `some v` when `findAndGetOFString(Array)` returns a
`good()` condition and the value `v`, `none` otherwise.  `lowerLevelList` holds
the records of the next lower level, in file order. -/
inductive DcmDirectoryRecord where
  | mk (PatientName StudyInstanceUID SeriesInstanceUID ReferencedSOPInstanceUIDInFile
      ReferencedFileID : Option String) (lowerLevelList : List DcmDirectoryRecord)

namespace DcmDirectoryRecord

/-- Attribute `DCM_PatientName`. -/
def PatientName : DcmDirectoryRecord → Option String
  | mk a _ _ _ _ _ => a

/-- Attribute `DCM_StudyInstanceUID`. -/
def StudyInstanceUID : DcmDirectoryRecord → Option String
  | mk _ a _ _ _ _ => a

/-- Attribute `DCM_SeriesInstanceUID`. -/
def SeriesInstanceUID : DcmDirectoryRecord → Option String
  | mk _ _ a _ _ _ => a

/-- Attribute `DCM_ReferencedSOPInstanceUIDInFile`. -/
def ReferencedSOPInstanceUIDInFile : DcmDirectoryRecord → Option String
  | mk _ _ _ a _ _ => a

/-- Attribute `DCM_ReferencedFileID` (components joined by a backslash). -/
def ReferencedFileID : DcmDirectoryRecord → Option String
  | mk _ _ _ _ a _ => a

/-- The records one level below this one. -/
def lowerLevelList : DcmDirectoryRecord → List DcmDirectoryRecord
  | mk _ _ _ _ _ l => l

/-- The string that a successful
`findAndGetOFStringArray( DCM_ReferencedFileID, referencedFileName )` leaves in
the variable `referencedFileName`; the body of the innermost loop, the only
place that reads the variable, runs only after such a success. -/
def referencedFileName (r : DcmDirectoryRecord) : String :=
  r.ReferencedFileID.getD ""

/-- The same record with other lower-level records. -/
def withLower : DcmDirectoryRecord → List DcmDirectoryRecord → DcmDirectoryRecord
  | mk a b c d e _, l => mk a b c d e l

end DcmDirectoryRecord

/-- A `DcmDirectoryRecord *` that is not `NULL`.  The address is modelled by
the place of the record in the catalog: `loc` lists the child indices on the
way from the record up to the root (the root record has `loc = []`, its third
child `[2]`, the first child of that one `[0, 2]`).  Two pointers are the same
pointer exactly when their `loc` agree. -/
structure RecordPtr where
  loc : List Nat
  target : DcmDirectoryRecord

/-- Pointers to the records `rs`, which are the children number `i`, `i+1`, ...
of the record at `loc`. -/
def subPtrs (loc : List Nat) : Nat → List DcmDirectoryRecord → List RecordPtr
  | _, [] => []
  | i, r :: rs => ⟨i :: loc, r⟩ :: subPtrs loc (i + 1) rs

/-- Pointers to the lower-level records of the record `p` points to. -/
def RecordPtr.lowerLevelList (p : RecordPtr) : List RecordPtr :=
  subPtrs p.loc 0 p.target.lowerLevelList

/-- Modelled from the spec: `DcmSequenceOfItems::nextInContainer` of the DCMTK
library, which is not part of this repository.  For `NULL` the first item; else
the list is searched from its first item for `obj` and the item after it is
returned, `NULL` when `obj` is the last item or is not in the list. -/
def nextInContainer (items : List RecordPtr) : Option RecordPtr → Option RecordPtr
  | none => items.head?
  | some obj => ((items.dropWhile (fun p => p.loc != obj.loc)).drop 1).head?

/-- Modelled from the spec: `DcmDirectoryRecord::nextSub` of the DCMTK library,
`lowerLevelList->nextInContainer(record)`: the first lower-level record for a
`NULL` cursor, the following sibling (or `NULL` after the last) for a cursor on
one of the lower-level records, and `NULL` for a cursor that is not on one of
them. -/
def RecordPtr.nextSub (p : RecordPtr) (record : Option RecordPtr) : Option RecordPtr :=
  nextInContainer p.lowerLevelList record

/-- The four levels of the walk, one per nested `while` loop. -/
inductive Level where
  | patient
  | study
  | series
  | file
  deriving DecidableEq

/-- The `.good()` part of the loop condition of each level. -/
def Level.good : Level → DcmDirectoryRecord → Bool
  | Level.patient, r => r.PatientName.isSome
  | Level.study, r => r.StudyInstanceUID.isSome
  | Level.series, r => r.SeriesInstanceUID.isSome
  | Level.file, r => r.ReferencedSOPInstanceUIDInFile.isSome && r.ReferencedFileID.isSome

/-- The local variables of `addDicomdir` that the loops change: the four
cursors, declared once and initialised to `NULL`, and `listOfInstances`. -/
structure Locals where
  patientRecord : Option RecordPtr
  studyRecord : Option RecordPtr
  seriesRecord : Option RecordPtr
  fileRecord : Option RecordPtr
  listOfInstances : List QString

/-- The cursor of a level. -/
def Locals.get (v : Locals) : Level → Option RecordPtr
  | Level.patient => v.patientRecord
  | Level.study => v.studyRecord
  | Level.series => v.seriesRecord
  | Level.file => v.fileRecord

/-- Assignment to the cursor of a level. -/
def Locals.set (v : Locals) : Level → Option RecordPtr → Locals
  | Level.patient, c => { v with patientRecord := c }
  | Level.study, c => { v with studyRecord := c }
  | Level.series, c => { v with seriesRecord := c }
  | Level.file, c => { v with fileRecord := c }

/-- The character `\` (code 92) is replaced by `/` (code 47) everywhere:
`instanceFilePath.replace( "\\", "/" )`. -/
def replaceBackslash (s : QString) : QString :=
  ⟨s.data.map (fun c => if c = Char.ofNat 92 then Char.ofNat 47 else c)⟩

/-- The path computed in the innermost loop body: `directoryName`, then `"/"`,
then the referenced file name, then the replacement. -/
def instanceFilePath (directoryName : QString) (referencedFileName : String) : QString :=
  replaceBackslash ((directoryName ++ "/") ++ referencedFileName)

/-- The loop
`while ( ( cursor = parent->nextSub( cursor ) ) != NULL && cursor->find...( ... ).good() ) body`
of level `lv`, run for at most `fuel` evaluations of its condition; `none` when
that bound is reached before the loop has ended. -/
def whileNextSub (lv : Level) (parent : RecordPtr) (body : RecordPtr → Locals → Option Locals) :
    Nat → Locals → Option Locals
  | 0, _ => none
  | fuel + 1, v =>
    match parent.nextSub (v.get lv) with
    | none => some (v.set lv none)
    | some c =>
      if lv.good c.target then
        match body c (v.set lv (some c)) with
        | none => none
        | some v2 => whileNextSub lv parent body fuel v2
      else some (v.set lv (some c))

/-- A loop of the walk: the condition is evaluated at most once more than the
parent has lower-level records. -/
def whileLoop (lv : Level) (parent : RecordPtr) (body : RecordPtr → Locals → Option Locals)
    (v : Locals) : Option Locals :=
  whileNextSub lv parent body (parent.target.lowerLevelList.length + 1) v

/-- The innermost loop, over the records below `seriesRecord`. -/
def fileLoop (directoryName : QString) (seriesRecord : RecordPtr) (v : Locals) : Option Locals :=
  whileLoop Level.file seriesRecord
    (fun fileRecord w => some { w with listOfInstances := w.listOfInstances ++
      [instanceFilePath directoryName fileRecord.target.referencedFileName] }) v

/-- The loop over the records below `studyRecord`. -/
def seriesLoop (directoryName : QString) (studyRecord : RecordPtr) (v : Locals) : Option Locals :=
  whileLoop Level.series studyRecord (fun seriesRecord w => fileLoop directoryName seriesRecord w) v

/-- The loop over the records below `patientRecord`. -/
def studyLoop (directoryName : QString) (patientRecord : RecordPtr) (v : Locals) : Option Locals :=
  whileLoop Level.study patientRecord (fun studyRecord w => seriesLoop directoryName studyRecord w) v

/-- The outermost loop, over the records below the root record. -/
def patientLoop (directoryName : QString) (rootRecord : RecordPtr) (v : Locals) : Option Locals :=
  whileLoop Level.patient rootRecord
    (fun patientRecord w => studyLoop directoryName patientRecord w) v

/-- The locals when the loops start. -/
def Locals.initial : Locals := ⟨none, none, none, none, []⟩

/-- The object `DcmDicomDir( directoryName + "/DICOMDIR" )`.  `errorGood` is
`dicomDir->error().good()`, false when the file could not be opened or read as
a DICOMDIR; `addDicomdir` never asks for it.  `rootRecord` is
`&( dicomDir->getRootRecord() )`, `none` for `NULL`; `getRootRecord()` returns
a reference, so the library hands out a root record also for a file it could
not read, one without lower-level records. -/
structure DcmDicomDir where
  errorGood : Bool
  rootRecord : Option DcmDirectoryRecord

/-- The list `listOfInstances` when the loops of `addDicomdir` have ended. -/
def collectInstances (rootRecord : DcmDirectoryRecord) (directoryName : QString) :
    Option (List QString) :=
  (patientLoop directoryName ⟨[], rootRecord⟩ Locals.initial).map Locals.listOfInstances

/-- The function `ctkDICOMIndexer::addDicomdir`; `none` only if a loop bound of the
model is reached. -/
def addDicomdir (env : CancelRequests) (dicomDir : DcmDicomDir)
    (directoryName destinationDirectoryName : QString) (d : ctkDICOMIndexerPrivate) :
    Option (ctkDICOMIndexerPrivate × List Event) :=
  match dicomDir.rootRecord with
  | none => some (d, [])
  | some rootRecord =>
    match collectInstances rootRecord directoryName with
    | none => none
    | some listOfInstances =>
      let d1 := handOver env.onFoundFilesToIndex d
      let r := addListOfFiles env listOfInstances directoryName destinationDirectoryName d1
      some (r.1, Event.foundFilesToIndex (listOfInstances.length : Int) :: r.2)

/-- What `addDirectory` sees of the file system under `directoryName`:
`directory.exists("DICOMDIR")`, the paths the `QDirIterator` (files only,
subdirectories included) returns, in its order, and the catalog that opening
`directoryName/DICOMDIR` yields. -/
structure DirectoryState where
  existsDICOMDIR : Bool
  iteratedFiles : List QString
  dicomDir : DcmDicomDir

/-- The function `ctkDICOMIndexer::addDirectory`. -/
def addDirectory (env : CancelRequests) (fs : DirectoryState)
    (directoryName destinationDirectoryName : QString) (d : ctkDICOMIndexerPrivate) :
    Option (ctkDICOMIndexerPrivate × List Event) :=
  if fs.existsDICOMDIR then
    addDicomdir env fs.dicomDir directoryName destinationDirectoryName d
  else
    let listOfFiles := fs.iteratedFiles
    let d1 := handOver env.onFoundFilesToIndex d
    let r := addListOfFiles env listOfFiles directoryName destinationDirectoryName d1
    some (r.1, Event.foundFilesToIndex (listOfFiles.length : Int) :: r.2)

/-! ## Example catalogs -/

/-- A file record with both referenced-SOP-instance and referenced-file field. -/
def fileRec (sop fileId : String) : DcmDirectoryRecord :=
  DcmDirectoryRecord.mk none none none (some sop) (some fileId) []

/-- A series record with its UID. -/
def seriesRec (uid : String) (files : List DcmDirectoryRecord) : DcmDirectoryRecord :=
  DcmDirectoryRecord.mk none none (some uid) none none files

/-- A study record with its UID. -/
def studyRec (uid : String) (series : List DcmDirectoryRecord) : DcmDirectoryRecord :=
  DcmDirectoryRecord.mk none (some uid) none none none series

/-- A patient record with its name. -/
def patientRec (name : String) (studies : List DcmDirectoryRecord) : DcmDirectoryRecord :=
  DcmDirectoryRecord.mk (some name) none none none none studies

/-- A record without any of the attributes the walk asks for. -/
def blankRec (subs : List DcmDirectoryRecord) : DcmDirectoryRecord :=
  DcmDirectoryRecord.mk none none none none none subs

/-- A root record. -/
def rootRec (patients : List DcmDirectoryRecord) : DcmDirectoryRecord :=
  DcmDirectoryRecord.mk none none none none none patients

/-! ## The walk without pointers

After a loop has ended, all that later loops can tell about its cursor is
whether it is `NULL`: a cursor that is not `NULL` points to a record of a parent
that has been left, and `nextSub` of any later parent answers `NULL` to it.  So
the walk can be described with one flag per cursor. -/

/-- The depth of the records of a level below the root, minus one. -/
def Level.depth : Level → Nat
  | Level.patient => 0
  | Level.study => 1
  | Level.series => 2
  | Level.file => 3

/-- For each cursor whether it is not `NULL`, and the list of instances. -/
structure Shadow where
  patient : Bool
  study : Bool
  series : Bool
  file : Bool
  listOfInstances : List QString
  deriving DecidableEq

/-- The flag of a level. -/
def Shadow.get (a : Shadow) : Level → Bool
  | Level.patient => a.patient
  | Level.study => a.study
  | Level.series => a.series
  | Level.file => a.file

/-- Setting the flag of a level. -/
def Shadow.set (a : Shadow) : Level → Bool → Shadow
  | Level.patient, b => { a with patient := b }
  | Level.study, b => { a with study := b }
  | Level.series, b => { a with series := b }
  | Level.file, b => { a with file := b }

/-- What is left of the locals when pointers are forgotten. -/
def Locals.shadow (v : Locals) : Shadow :=
  ⟨v.patientRecord.isSome, v.studyRecord.isSome, v.seriesRecord.isSome, v.fileRecord.isSome,
    v.listOfInstances⟩

/-- All cursors `NULL`, no instance yet. -/
def Shadow.initial : Shadow := ⟨false, false, false, false, []⟩

/-- A loop of level `lv` that starts with a `NULL` cursor, over the lower-level
records `rs` still ahead: it ends with a `NULL` cursor when the records are
exhausted, and with the cursor on the first record that fails the test. -/
def sweep (lv : Level) (body : DcmDirectoryRecord → Shadow → Shadow) :
    List DcmDirectoryRecord → Shadow → Shadow
  | [], a => a.set lv false
  | r :: rs, a =>
    if lv.good r then sweep lv body rs (body r (a.set lv true)) else a.set lv true

/-- A loop of level `lv` over the lower-level records of a parent that is
entered for the first time: a cursor that is not `NULL` is only reset. -/
def sweepLoop (lv : Level) (body : DcmDirectoryRecord → Shadow → Shadow)
    (lower : List DcmDirectoryRecord) (a : Shadow) : Shadow :=
  if a.get lv then a.set lv false else sweep lv body lower a

/-- The body of the innermost loop. -/
def appendInstance (directoryName : QString) (fileRecord : DcmDirectoryRecord)
    (a : Shadow) : Shadow :=
  { a with listOfInstances := a.listOfInstances ++
      [instanceFilePath directoryName fileRecord.referencedFileName] }

/-- The innermost loop for the series record `seriesRecord`. -/
def sweepFiles (directoryName : QString) (seriesRecord : DcmDirectoryRecord) (a : Shadow) :
    Shadow :=
  sweepLoop Level.file (appendInstance directoryName) seriesRecord.lowerLevelList a

/-- The series loop for the study record `studyRecord`. -/
def sweepSeries (directoryName : QString) (studyRecord : DcmDirectoryRecord) (a : Shadow) :
    Shadow :=
  sweepLoop Level.series (sweepFiles directoryName) studyRecord.lowerLevelList a

/-- The study loop for the patient record `patientRecord`. -/
def sweepStudies (directoryName : QString) (patientRecord : DcmDirectoryRecord) (a : Shadow) :
    Shadow :=
  sweepLoop Level.study (sweepSeries directoryName) patientRecord.lowerLevelList a

/-- The patient loop for the root record. -/
def sweepPatients (directoryName : QString) (rootRecord : DcmDirectoryRecord) (a : Shadow) :
    Shadow :=
  sweepLoop Level.patient (sweepStudies directoryName) rootRecord.lowerLevelList a

/-- The cursor `c` points to a record strictly below the record at `loc`. -/
def Below (c : Option RecordPtr) (loc : List Nat) : Prop :=
  ∃ p pre, c = some p ∧ pre ≠ [] ∧ p.loc = pre ++ loc

/-- No cursor points below the record at `loc`. -/
def Clear (v : Locals) (loc : List Nat) : Prop :=
  ∀ lv : Level, ¬ Below (v.get lv) loc

/-- How the cursors of `w` come from those of `v` when loops of depth at least
`d` have run below the record at `loc`: cursors of smaller depth are untouched,
the others are `NULL`, untouched, or point below `loc`. -/
def MovedAt (d : Nat) (v w : Locals) (loc : List Nat) : Prop :=
  ∀ lv : Level,
    (lv.depth < d → w.get lv = v.get lv) ∧
    (d ≤ lv.depth → w.get lv = none ∨ w.get lv = v.get lv ∨ Below (w.get lv) loc)

/-- What the body of a loop must do for the loop to be described by `sweep`:
run on a record below which no cursor points yet, it ends, its effect on the
flags and the list is `abody`, and it moves cursors of depth at least `d` only. -/
def BodySpec (d : Nat) (body : RecordPtr → Locals → Option Locals)
    (abody : DcmDirectoryRecord → Shadow → Shadow) : Prop :=
  ∀ (c : RecordPtr) (v : Locals), Clear v c.loc →
    ∃ w, body c v = some w ∧ w.shadow = abody c.target v.shadow ∧ MovedAt d v w c.loc

/-- The flags unchanged, some instances more. -/
def Shadow.addInstances (a : Shadow) (l : List QString) : Shadow :=
  { a with listOfInstances := a.listOfInstances ++ l }

/-- The flags of depth at least `d` are all down. -/
def Shadow.quiet (d : Nat) (a : Shadow) : Prop :=
  ∀ lv : Level, d ≤ lv.depth → a.get lv = false

/-! ## Catalogs in which every record has what its level asks for -/

/-- Every record below the series record passes the test of the file level. -/
def wellFormedSeries (seriesRecord : DcmDirectoryRecord) : Bool :=
  seriesRecord.lowerLevelList.all Level.file.good

/-- Every record below the study record has a series UID and is well formed. -/
def wellFormedStudy (studyRecord : DcmDirectoryRecord) : Bool :=
  studyRecord.lowerLevelList.all (fun r => Level.series.good r && wellFormedSeries r)

/-- Every record below the patient record has a study UID and is well formed. -/
def wellFormedPatient (patientRecord : DcmDirectoryRecord) : Bool :=
  patientRecord.lowerLevelList.all (fun r => Level.study.good r && wellFormedStudy r)

/-- Every patient has a name, every study a study UID, every series a series
UID, every file record both the referenced SOP instance and the referenced file. -/
def wellFormed (rootRecord : DcmDirectoryRecord) : Bool :=
  rootRecord.lowerLevelList.all (fun r => Level.patient.good r && wellFormedPatient r)

/-- The path the innermost loop appends for a file record. -/
def pathOfFile (directoryName : QString) (fileRecord : DcmDirectoryRecord) : QString :=
  replaceBackslash (directoryName ++ "/" ++ fileRecord.referencedFileName)

/-! ## Catalogs cut after the first invalid record -/

/-- The records up to and including the first one that fails the test of the
level; what follows it is dropped. -/
def uptoInvalid (lv : Level) : List DcmDirectoryRecord → List DcmDirectoryRecord
  | [] => []
  | r :: rs => if lv.good r then r :: uptoInvalid lv rs else [r]

/-- A series record without the file records that follow an invalid one. -/
def cutSeries (seriesRecord : DcmDirectoryRecord) : DcmDirectoryRecord :=
  seriesRecord.withLower (uptoInvalid Level.file seriesRecord.lowerLevelList)

/-- A study record without the records that follow an invalid sibling. -/
def cutStudy (studyRecord : DcmDirectoryRecord) : DcmDirectoryRecord :=
  studyRecord.withLower ((uptoInvalid Level.series studyRecord.lowerLevelList).map cutSeries)

/-- A patient record without the records that follow an invalid sibling. -/
def cutPatient (patientRecord : DcmDirectoryRecord) : DcmDirectoryRecord :=
  patientRecord.withLower ((uptoInvalid Level.study patientRecord.lowerLevelList).map cutStudy)

/-- A catalog without the records, at any of the four levels, that follow an
invalid sibling under the same parent. -/
def cutCatalog (rootRecord : DcmDirectoryRecord) : DcmDirectoryRecord :=
  rootRecord.withLower ((uptoInvalid Level.patient rootRecord.lowerLevelList).map cutPatient)

/-- The records of the fourth level, in depth-first document order. -/
def fileRecords (rootRecord : DcmDirectoryRecord) : List DcmDirectoryRecord :=
  rootRecord.lowerLevelList.flatMap fun p => p.lowerLevelList.flatMap fun st =>
    st.lowerLevelList.flatMap fun se => se.lowerLevelList

/-! ## Example surroundings -/

/-- The first and only `cancel()` comes from inside `database.insert` for the
file at position `k`. -/
def cancelDuringInsert (k : Nat) : CancelRequests :=
  ⟨false, fun _ => false, fun _ => false, fun i => i == k, false⟩

/-- The first and only `cancel()` comes from a slot connected to `progress`, for the
file at position `k`. -/
def cancelDuringProgress (k : Nat) : CancelRequests :=
  ⟨false, fun i => i == k, fun _ => false, fun _ => false, false⟩

/-- The string that consists of one backslash. -/
def backslash : String := String.singleton (Char.ofNat 92)

/-- One patient, one study, one series, two file records; the first file is
referenced with a backslash as separator. -/
def smallCatalog : DcmDirectoryRecord :=
  rootRec [patientRec "DOE^JOHN" [studyRec "1.2.1" [seriesRec "1.2.1.1"
    [fileRec "1.2.1.1.1" ("IMG" ++ backslash ++ "F1"), fileRec "1.2.1.1.2" "IMG/F2"]]]]

/-- A patient with one study, one series and one file record referencing `fileId`. -/
def patientWithFile (name fileId : String) : DcmDirectoryRecord :=
  patientRec name [studyRec "1.2.1" [seriesRec "1.2.1.1" [fileRec "1.2.1.1.1" fileId]]]

/-- Three patient records; the second has no name, all three have a file below. -/
def secondPatientNameless : DcmDirectoryRecord :=
  rootRec [patientWithFile "A" "a",
    blankRec [studyRec "1.2.2" [seriesRec "1.2.2.1" [fileRec "1.2.2.1.1" "z"]]],
    patientWithFile "C" "c"]

/-- A directory without `DICOMDIR` in which the iterator finds two files. -/
def flatDirectory : DirectoryState :=
  ⟨false, ["root/a", "root/b"], ⟨false, none⟩⟩

/-- A directory with a `DICOMDIR` that holds `smallCatalog`, and a file besides
that the catalog does not mention. -/
def catalogDirectory : DirectoryState :=
  ⟨true, ["root/DICOMDIR", "root/IMG/F1", "root/IMG/F2", "root/stray"], ⟨true, some smallCatalog⟩⟩

/-! ## The reference walk of the specification -/

/-- The path list as the specification describes it, written from its words and
not from the code: the longest run of leading records below the root that have
a patient name; for each of them the longest run of leading records below it
that have a study UID; for each of those the longest run of leading records
that have a series UID; for each of those the longest run of leading records
that have both the referenced SOP instance and the referenced file; the paths of
these file records, in document order. -/
def referenceWalk (rootRecord : DcmDirectoryRecord) (directoryName : QString) : List QString :=
  (rootRecord.lowerLevelList.takeWhile fun p => p.PatientName.isSome).flatMap fun p =>
    (p.lowerLevelList.takeWhile fun st => st.StudyInstanceUID.isSome).flatMap fun st =>
      (st.lowerLevelList.takeWhile fun se => se.SeriesInstanceUID.isSome).flatMap fun se =>
        (se.lowerLevelList.takeWhile fun f =>
            f.ReferencedSOPInstanceUIDInFile.isSome && f.ReferencedFileID.isSome).map fun f =>
          replaceBackslash (directoryName ++ "/" ++ f.referencedFileName)

/-- One patient, one study, two series: the first series has a valid file
record followed by a record without the two file fields, the second series has
one valid file record. -/
def staleCursorCatalog : DcmDirectoryRecord :=
  rootRec [patientRec "DOE^JOHN" [studyRec "1.2.1"
    [seriesRec "1.2.1.1" [fileRec "1.2.1.1.1" "a", blankRec []],
     seriesRec "1.2.1.2" [fileRec "1.2.1.2.1" "b"]]]]

/-! # Theorems -/

/-! ## The import loop: general facts -/

theorem handOver_false (d : ctkDICOMIndexerPrivate) : handOver false d = d := rfl

theorem handOver_true (d : ctkDICOMIndexerPrivate) : handOver true d = ⟨true⟩ := rfl

theorem handOver_canceled (b : Bool) (d : ctkDICOMIndexerPrivate) :
    (handOver b d).Canceled = (b || d.Canceled) := by
  cases b <;> simp [handOver, cancel]

theorem duringFile_eq_false {env : CancelRequests} {i : Nat} (h : env.duringFile i = false) :
    env.onProgress i = false ∧ env.onIndexingFilePath i = false ∧ env.onInsert i = false := by
  simpa [CancelRequests.duringFile, and_assoc] using h

/-- One iteration of the loop: the flag after it and its three events. -/
theorem foreachFile_cons (env : CancelRequests) (size : Nat) (src dst : QString)
    (p : QString) (rest : List QString) (i : Nat) (d : ctkDICOMIndexerPrivate)
    (hd : d.Canceled = false) :
    foreachFile env size src dst (p :: rest) i d =
      if env.duringFile i then
        (⟨true⟩, fileEvents size src dst i p)
      else
        ((foreachFile env size src dst rest (i + 1) d).1,
          fileEvents size src dst i p ++ (foreachFile env size src dst rest (i + 1) d).2) := by
  obtain ⟨c⟩ := d
  simp only at hd
  subst hd
  simp only [foreachFile, addFile, CancelRequests.duringFile, fileEvents]
  cases env.onProgress i <;> cases env.onIndexingFilePath i <;> cases env.onInsert i <;>
    simp [handOver, cancel]

/-- As long as nobody cancels, the loop runs through all files. -/
theorem foreachFile_quiet (env : CancelRequests) (size : Nat) (src dst : QString) :
    ∀ (files : List QString) (i : Nat) (d : ctkDICOMIndexerPrivate),
      d.Canceled = false →
      (∀ j, i ≤ j → j < i + files.length → env.duringFile j = false) →
      foreachFile env size src dst files i d = (d, eventsFrom size src dst i files)
  | [], _, _, _, _ => rfl
  | p :: rest, i, d, hd, hq => by
    have h0 : env.duringFile i = false := hq i (Nat.le_refl i) (by simp)
    have ih := foreachFile_quiet env size src dst rest (i + 1) d hd
      (fun j h1 h2 => hq j (by omega) (by simp only [List.length_cons]; omega))
    rw [foreachFile_cons env size src dst p rest i d hd, h0, ih]
    simp [eventsFrom]

/-- The loop stops after the first file during which `cancel()` is called. -/
theorem foreachFile_cancel (env : CancelRequests) (size : Nat) (src dst : QString) :
    ∀ (before : List QString) (p : QString) (after : List QString) (i : Nat)
      (d : ctkDICOMIndexerPrivate),
      d.Canceled = false →
      (∀ j, i ≤ j → j < i + before.length → env.duringFile j = false) →
      env.duringFile (i + before.length) = true →
      foreachFile env size src dst (before ++ p :: after) i d =
        (⟨true⟩, eventsFrom size src dst i (before ++ [p]))
  | [], p, after, i, d, hd, _, hc => by
    have hc2 : env.duringFile i = true := by simpa using hc
    rw [List.nil_append, foreachFile_cons env size src dst p after i d hd, hc2]
    simp [eventsFrom]
  | q :: before, p, after, i, d, hd, hq, hc => by
    have h0 : env.duringFile i = false := hq i (Nat.le_refl i) (by simp)
    have ih := foreachFile_cancel env size src dst before p after (i + 1) d hd
      (fun j h1 h2 => hq j (by omega) (by simp only [List.length_cons]; omega))
      (by simpa [Nat.add_assoc, Nat.add_comm 1] using hc)
    rw [List.cons_append, foreachFile_cons env size src dst q _ i d hd, h0, ih]
    simp [eventsFrom]

/-- The whole call when nobody cancels while a file is processed. -/
theorem addListOfFiles_quiet (env : CancelRequests) (files : List QString) (src dst : QString)
    (d : ctkDICOMIndexerPrivate) (hq : ∀ j, j < files.length → env.duringFile j = false) :
    addListOfFiles env files src dst d =
      (handOver env.onIndexingComplete ⟨false⟩,
        eventsFrom files.length src dst 0 files ++ [Event.indexingComplete]) := by
  have h := foreachFile_quiet env files.length src dst files 0 ⟨false⟩ rfl
    (fun j _ h => hq j (by omega))
  simp only [addListOfFiles, h]

/-- The whole call when the first `cancel()` comes while file `k` is processed. -/
theorem addListOfFiles_cancel (env : CancelRequests) (files : List QString) (src dst : QString)
    (d : ctkDICOMIndexerPrivate) (k : Nat) (hk : k < files.length)
    (hq : ∀ j, j < k → env.duringFile j = false) (hc : env.duringFile k = true) :
    addListOfFiles env files src dst d =
      (⟨true⟩, eventsFrom files.length src dst 0 (files.take (k + 1)) ++
        [Event.indexingComplete]) := by
  have hsplit : files = files.take k ++ files[k] :: files.drop (k + 1) := by
    rw [← List.drop_eq_getElem_cons hk, List.take_append_drop]
  have hlen : (files.take k).length = k := by
    rw [List.length_take]; omega
  have htake : files.take (k + 1) = files.take k ++ [files[k]] := by
    rw [List.take_succ, List.getElem?_eq_getElem hk]; rfl
  have h := foreachFile_cancel env files.length src dst (files.take k) files[k]
    (files.drop (k + 1)) 0 ⟨false⟩ rfl
    (fun j _ h2 => hq j (by omega)) (by rw [hlen]; simpa using hc)
  rw [← hsplit] at h
  simp only [addListOfFiles, h, htake]
  cases env.onIndexingComplete <;> rfl

/-! ## Reading the events of consecutive iterations -/

theorem progressValues_append (a b : List Event) :
    progressValues (a ++ b) = progressValues a ++ progressValues b := by
  induction a with
  | nil => rfl
  | cons e a ih => cases e <;> simp [progressValues, ih]

theorem insertedPaths_append (a b : List Event) :
    insertedPaths (a ++ b) = insertedPaths a ++ insertedPaths b := by
  induction a with
  | nil => rfl
  | cons e a ih => cases e <;> simp [insertedPaths, ih]

theorem announcedPaths_append (a b : List Event) :
    announcedPaths (a ++ b) = announcedPaths a ++ announcedPaths b := by
  induction a with
  | nil => rfl
  | cons e a ih => cases e <;> simp [announcedPaths, ih]

theorem foundCounts_append (a b : List Event) :
    foundCounts (a ++ b) = foundCounts a ++ foundCounts b := by
  induction a with
  | nil => rfl
  | cons e a ih => cases e <;> simp [foundCounts, ih]

theorem progressValues_eventsFrom (size : Nat) (src dst : QString) :
    ∀ (files : List QString) (i : Nat),
      progressValues (eventsFrom size src dst i files) =
        (List.range' i files.length).map (fun j => percentOf j size)
  | [], _ => rfl
  | p :: ps, i => by
    simp [eventsFrom, fileEvents, progressValues, List.range'_succ,
      progressValues_eventsFrom size src dst ps (i + 1)]

theorem insertedPaths_eventsFrom (size : Nat) (src dst : QString) :
    ∀ (files : List QString) (i : Nat),
      insertedPaths (eventsFrom size src dst i files) = files
  | [], _ => rfl
  | p :: ps, i => by
    simp [eventsFrom, fileEvents, insertedPaths, insertedPaths_eventsFrom size src dst ps (i + 1)]

theorem announcedPaths_eventsFrom (size : Nat) (src dst : QString) :
    ∀ (files : List QString) (i : Nat),
      announcedPaths (eventsFrom size src dst i files) = files
  | [], _ => rfl
  | p :: ps, i => by
    simp [eventsFrom, fileEvents, announcedPaths,
      announcedPaths_eventsFrom size src dst ps (i + 1)]

theorem foundCounts_eventsFrom (size : Nat) (src dst : QString) :
    ∀ (files : List QString) (i : Nat),
      foundCounts (eventsFrom size src dst i files) = []
  | [], _ => rfl
  | p :: ps, i => by
    simp [eventsFrom, fileEvents, foundCounts, foundCounts_eventsFrom size src dst ps (i + 1)]

theorem count_complete_eventsFrom (size : Nat) (src dst : QString) :
    ∀ (files : List QString) (i : Nat),
      (eventsFrom size src dst i files).count Event.indexingComplete = 0
  | [], _ => rfl
  | p :: ps, i => by
    simp [eventsFrom, fileEvents, count_complete_eventsFrom size src dst ps (i + 1)]

theorem length_eventsFrom (size : Nat) (src dst : QString) :
    ∀ (files : List QString) (i : Nat),
      (eventsFrom size src dst i files).length = 3 * files.length
  | [], _ => rfl
  | p :: ps, i => by
    simp [eventsFrom, fileEvents, length_eventsFrom size src dst ps (i + 1)]
    omega

/-- The events from the iteration of position `i + k` on: three events per
earlier iteration are skipped. -/
theorem drop_eventsFrom (size : Nat) (src dst : QString) :
    ∀ (k : Nat) (files : List QString) (i : Nat),
      (eventsFrom size src dst i files).drop (3 * k) =
        eventsFrom size src dst (i + k) (files.drop k)
  | 0, _, _ => rfl
  | k + 1, [], _ => by simp [eventsFrom]
  | k + 1, p :: ps, i => by
    have h : 3 * (k + 1) = 3 * k + 3 := by omega
    have h2 : i + (k + 1) = i + 1 + k := by omega
    rw [h, h2, List.drop_succ_cons, ← drop_eventsFrom size src dst k ps (i + 1)]
    simp [eventsFrom, fileEvents]

/-! ## Cursors: `nextSub` -/

theorem Locals.get_set (v : Locals) (lv lv2 : Level) (c : Option RecordPtr) :
    (v.set lv c).get lv2 = if lv2 = lv then c else v.get lv2 := by
  cases lv <;> cases lv2 <;> rfl

theorem Locals.get_set_self (v : Locals) (lv : Level) (c : Option RecordPtr) :
    (v.set lv c).get lv = c := by
  rw [Locals.get_set, if_pos rfl]

theorem Locals.shadow_set (v : Locals) (lv : Level) (c : Option RecordPtr) :
    (v.set lv c).shadow = v.shadow.set lv c.isSome := by
  cases lv <;> rfl

theorem Locals.shadow_get (v : Locals) (lv : Level) :
    v.shadow.get lv = (v.get lv).isSome := by
  cases lv <;> rfl

theorem loc_of_mem_subPtrs (loc : List Nat) :
    ∀ (rs : List DcmDirectoryRecord) (k : Nat) (p : RecordPtr),
      p ∈ subPtrs loc k rs → ∃ j, p.loc = j :: loc
  | [], _, _, h => by simp [subPtrs] at h
  | r :: rs, k, p, h => by
    simp only [subPtrs, List.mem_cons] at h
    rcases h with h | h
    · exact ⟨k, by rw [h]⟩
    · exact loc_of_mem_subPtrs loc rs (k + 1) p h

/-- Searching the children for the one at position `k + i` skips `i` of them. -/
theorem dropWhile_subPtrs (loc : List Nat) :
    ∀ (rs : List DcmDirectoryRecord) (k i : Nat),
      (subPtrs loc k rs).dropWhile (fun p => p.loc != (k + i) :: loc) =
        subPtrs loc (k + i) (rs.drop i)
  | [], _, _ => by simp [subPtrs]
  | r :: rs, k, 0 => by simp [subPtrs, List.dropWhile]
  | r :: rs, k, i + 1 => by
    have h := dropWhile_subPtrs loc rs (k + 1) i
    have e : k + 1 + i = k + (i + 1) := by omega
    rw [e] at h
    have hne : (k :: loc != (k + (i + 1)) :: loc) = true := by
      simp
    simp only [subPtrs, List.dropWhile, hne, h, List.drop_succ_cons]

/-- The answer of `nextSub` for a cursor on the child at position `i`: the child at position
`i + 1`, or `NULL`. -/
theorem nextSub_child (parent : RecordPtr) (c : RecordPtr) (i : Nat)
    (r : DcmDirectoryRecord) (rs : List DcmDirectoryRecord)
    (hc : c.loc = i :: parent.loc) (hdrop : parent.target.lowerLevelList.drop i = r :: rs) :
    parent.nextSub (some c) = (subPtrs parent.loc (i + 1) rs).head? := by
  have h := dropWhile_subPtrs parent.loc parent.target.lowerLevelList 0 i
  simp only [Nat.zero_add] at h
  simp only [RecordPtr.nextSub, nextInContainer, RecordPtr.lowerLevelList, hc, h, hdrop, subPtrs,
    List.drop_succ_cons, List.drop_zero]

/-- The answer of `nextSub` for a cursor that does not point to a child of the
parent: `NULL`. -/
theorem nextSub_stale (parent : RecordPtr) (c : RecordPtr)
    (hc : ∀ j, c.loc ≠ j :: parent.loc) : parent.nextSub (some c) = none := by
  have h : (parent.lowerLevelList.dropWhile (fun p => p.loc != c.loc)) = [] := by
    rw [List.dropWhile_eq_nil_iff]
    intro p hp
    obtain ⟨j, hj⟩ := loc_of_mem_subPtrs parent.loc _ 0 p hp
    have := hc j
    simp only [bne_iff_ne, ne_eq]
    intro e
    exact this (by rw [← e, hj])
  simp [RecordPtr.nextSub, nextInContainer, h]

/-! ## Cursors that point below a record -/

theorem Below.of_cons {c : Option RecordPtr} {j : Nat} {loc : List Nat}
    (h : Below c (j :: loc)) : Below c loc := by
  obtain ⟨p, pre, h1, _, h3⟩ := h
  exact ⟨p, pre ++ [j], h1, by simp, by simp [h3]⟩

theorem Below.child (j : Nat) (loc : List Nat) (r : DcmDirectoryRecord) :
    Below (some ⟨j :: loc, r⟩) loc :=
  ⟨⟨j :: loc, r⟩, [j], rfl, by simp, rfl⟩

theorem not_below_of_length {p : RecordPtr} {loc : List Nat} (h : p.loc.length ≤ loc.length) :
    ¬ Below (some p) loc := by
  rintro ⟨q, pre, h1, h2, h3⟩
  have hq : q = p := (Option.some.inj h1).symm
  subst hq
  have := congrArg List.length h3
  simp only [List.length_append] at this
  have hpos : 0 < pre.length := List.length_pos.mpr h2
  omega

theorem Below.not_sibling {c : Option RecordPtr} {i j : Nat} {loc : List Nat}
    (h : Below c (i :: loc)) (hij : i ≠ j) : ¬ Below c (j :: loc) := by
  rintro ⟨q, pre2, h1, _, h3⟩
  obtain ⟨p, pre, g1, _, g3⟩ := h
  have hq : q = p := by rw [g1] at h1; exact (Option.some.inj h1).symm
  subst hq
  rw [g3] at h3
  have := (List.append_inj' h3 (by simp)).2
  exact hij (List.cons.inj this).1

theorem Clear.cons {v : Locals} {loc : List Nat} (h : Clear v loc) (j : Nat) :
    Clear v (j :: loc) :=
  fun lv hb => h lv hb.of_cons

theorem clear_initial (loc : List Nat) : Clear Locals.initial loc := by
  intro lv
  rintro ⟨p, pre, h1, _, _⟩
  cases lv <;> simp [Locals.initial, Locals.get] at h1

theorem MovedAt.refl (d : Nat) (v : Locals) (loc : List Nat) : MovedAt d v v loc :=
  fun _ => ⟨fun _ => rfl, fun _ => Or.inr (Or.inl rfl)⟩

/-! ## One loop of the walk -/

theorem Level.depth_injective {a b : Level} (h : a.depth = b.depth) : a = b := by
  cases a <;> cases b <;> first | rfl | (simp [Level.depth] at h)

theorem whileNextSub_none (lv : Level) (parent : RecordPtr)
    (body : RecordPtr → Locals → Option Locals) (fuel : Nat) (v : Locals)
    (h : parent.nextSub (v.get lv) = none) :
    whileNextSub lv parent body (fuel + 1) v = some (v.set lv none) := by
  simp [whileNextSub, h]

theorem whileNextSub_bad (lv : Level) (parent : RecordPtr)
    (body : RecordPtr → Locals → Option Locals) (fuel : Nat) (v : Locals) (c : RecordPtr)
    (h : parent.nextSub (v.get lv) = some c) (hg : lv.good c.target = false) :
    whileNextSub lv parent body (fuel + 1) v = some (v.set lv (some c)) := by
  simp [whileNextSub, h, hg]

theorem whileNextSub_good (lv : Level) (parent : RecordPtr)
    (body : RecordPtr → Locals → Option Locals) (fuel : Nat) (v w : Locals) (c : RecordPtr)
    (h : parent.nextSub (v.get lv) = some c) (hg : lv.good c.target = true)
    (hb : body c (v.set lv (some c)) = some w) :
    whileNextSub lv parent body (fuel + 1) v = whileNextSub lv parent body fuel w := by
  simp [whileNextSub, h, hg, hb]

theorem movedAt_set_none (lv : Level) (v : Locals) (loc : List Nat) :
    MovedAt lv.depth v (v.set lv none) loc := by
  intro lv2
  by_cases e : lv2 = lv
  · subst e
    exact ⟨fun h => absurd h (Nat.lt_irrefl _), fun _ => Or.inl (Locals.get_set_self v lv2 none)⟩
  · have hget : (v.set lv none).get lv2 = v.get lv2 := by rw [Locals.get_set, if_neg e]
    exact ⟨fun _ => hget, fun _ => Or.inr (Or.inl hget)⟩

theorem movedAt_set_child (lv : Level) (v : Locals) (i : Nat) (loc : List Nat)
    (r : DcmDirectoryRecord) :
    MovedAt lv.depth v (v.set lv (some ⟨i :: loc, r⟩)) loc := by
  intro lv2
  by_cases e : lv2 = lv
  · subst e
    refine ⟨fun h => absurd h (Nat.lt_irrefl _), fun _ => Or.inr (Or.inr ?_)⟩
    rw [Locals.get_set_self]
    exact Below.child i loc r
  · have hget : (v.set lv (some ⟨i :: loc, r⟩)).get lv2 = v.get lv2 := by
      rw [Locals.get_set, if_neg e]
    exact ⟨fun _ => hget, fun _ => Or.inr (Or.inl hget)⟩

/-- Entering the body: no cursor points below the child the cursor was just put on. -/
theorem clear_enter (lv : Level) (v : Locals) (i : Nat) (loc : List Nat)
    (r : DcmDirectoryRecord) (h : Clear v (i :: loc)) :
    Clear (v.set lv (some ⟨i :: loc, r⟩)) (i :: loc) := by
  intro lv2
  by_cases e : lv2 = lv
  · subst e
    rw [Locals.get_set_self]
    exact not_below_of_length (Nat.le_refl _)
  · rw [Locals.get_set, if_neg e]
    exact h lv2

/-- After the body has run on child `i`, no cursor points below a later child. -/
theorem clear_after (lv : Level) (v w : Locals) (i : Nat) (loc : List Nat)
    (r : DcmDirectoryRecord) (hclear : ∀ j, i ≤ j → Clear v (j :: loc))
    (hm : MovedAt (lv.depth + 1) (v.set lv (some ⟨i :: loc, r⟩)) w (i :: loc)) :
    ∀ j, i + 1 ≤ j → Clear w (j :: loc) := by
  intro j hj lv2 hb
  have hold : ¬ Below ((v.set lv (some ⟨i :: loc, r⟩)).get lv2) (j :: loc) := by
    by_cases e : lv2 = lv
    · subst e
      rw [Locals.get_set_self]
      exact not_below_of_length (by simp)
    · rw [Locals.get_set, if_neg e]
      exact hclear j (by omega) lv2
  obtain ⟨h1, h2⟩ := hm lv2
  by_cases hd : lv2.depth < lv.depth + 1
  · rw [h1 hd] at hb
    exact hold hb
  · rcases h2 (by omega) with h | h | h
    · rw [h] at hb
      obtain ⟨p, pre, hp, _, _⟩ := hb
      cases hp
    · rw [h] at hb
      exact hold hb
    · exact h.not_sibling (by omega) hb

/-- The moves of one iteration followed by those of the rest of the loop. -/
theorem MovedAt.step (lv : Level) (v v2 w : Locals) (i : Nat) (loc : List Nat)
    (r : DcmDirectoryRecord)
    (h1 : MovedAt (lv.depth + 1) (v.set lv (some ⟨i :: loc, r⟩)) v2 (i :: loc))
    (h2 : MovedAt lv.depth v2 w loc) : MovedAt lv.depth v w loc := by
  intro lv2
  obtain ⟨a1, a2⟩ := h1 lv2
  obtain ⟨b1, b2⟩ := h2 lv2
  by_cases e : lv2 = lv
  · subst e
    refine ⟨fun h => absurd h (Nat.lt_irrefl _), fun h => ?_⟩
    have hv2 : v2.get lv2 = some ⟨i :: loc, r⟩ := by
      rw [a1 (Nat.lt_succ_self _), Locals.get_set_self]
    rcases b2 h with h | h | h
    · exact Or.inl h
    · refine Or.inr (Or.inr ?_)
      rw [h, hv2]
      exact Below.child i loc r
    · exact Or.inr (Or.inr h)
  · have hget : (v.set lv (some ⟨i :: loc, r⟩)).get lv2 = v.get lv2 := by
      rw [Locals.get_set, if_neg e]
    have hne : lv2.depth ≠ lv.depth := fun h => e (Level.depth_injective h)
    refine ⟨fun h => ?_, fun h => ?_⟩
    · rw [b1 h, a1 (by omega), hget]
    · rcases b2 h with h3 | h3 | h3
      · exact Or.inl h3
      · rcases a2 (by omega) with h4 | h4 | h4
        · exact Or.inl (by rw [h3, h4])
        · exact Or.inr (Or.inl (by rw [h3, h4, hget]))
        · refine Or.inr (Or.inr ?_)
          rw [h3]
          exact h4.of_cons
      · exact Or.inr (Or.inr h3)

/-- A loop whose cursor is on the child before `rs` (or `NULL` with all children
ahead) is described by `sweep`, and it ends within `rs.length + 1` evaluations of
its condition. -/
theorem whileNextSub_sweep (lv : Level) (parent : RecordPtr)
    (body : RecordPtr → Locals → Option Locals)
    (abody : DcmDirectoryRecord → Shadow → Shadow)
    (hbody : BodySpec (lv.depth + 1) body abody) :
    ∀ (rs : List DcmDirectoryRecord) (i fuel : Nat) (v : Locals),
      rs.length < fuel →
      parent.nextSub (v.get lv) = (subPtrs parent.loc i rs).head? →
      parent.target.lowerLevelList.drop i = rs →
      (∀ j, i ≤ j → Clear v (j :: parent.loc)) →
      ∃ w, whileNextSub lv parent body fuel v = some w ∧
        w.shadow = sweep lv abody rs v.shadow ∧ MovedAt lv.depth v w parent.loc
  | [], i, 0, v, hf, _, _, _ => absurd hf (Nat.lt_irrefl _)
  | [], i, fuel + 1, v, _, hnext, _, _ => by
    refine ⟨v.set lv none, whileNextSub_none lv parent body fuel v hnext, ?_,
      movedAt_set_none lv v parent.loc⟩
    rw [Locals.shadow_set]
    rfl
  | r :: rs, i, 0, v, hf, _, _, _ => absurd hf (Nat.not_lt_zero _)
  | r :: rs, i, fuel + 1, v, hf, hnext, hdrop, hclear => by
    have hnext2 : parent.nextSub (v.get lv) = some ⟨i :: parent.loc, r⟩ := by
      rw [hnext]; rfl
    by_cases hg : lv.good r = true
    · obtain ⟨v2, hb, hsh, hmv⟩ := hbody ⟨i :: parent.loc, r⟩ (v.set lv (some ⟨i :: parent.loc, r⟩))
        (clear_enter lv v i parent.loc r (hclear i (Nat.le_refl i)))
      have hcur : v2.get lv = some ⟨i :: parent.loc, r⟩ := by
        rw [(hmv lv).1 (Nat.lt_succ_self _), Locals.get_set_self]
      have hdrop2 : parent.target.lowerLevelList.drop (i + 1) = rs := by
        rw [← List.tail_drop, hdrop]; rfl
      obtain ⟨w, hw, hwsh, hwmv⟩ := whileNextSub_sweep lv parent body abody hbody rs (i + 1)
        fuel v2 (by simpa using hf)
        (by rw [hcur]; exact nextSub_child parent _ i r rs rfl hdrop)
        hdrop2 (clear_after lv v v2 i parent.loc r hclear hmv)
      refine ⟨w, ?_, ?_, MovedAt.step lv v v2 w i parent.loc r hmv hwmv⟩
      · rw [whileNextSub_good lv parent body fuel v v2 _ hnext2 hg hb, hw]
      · rw [hwsh, hsh, Locals.shadow_set]
        simp [sweep, hg]
    · have hg2 : lv.good r = false := by simpa using hg
      refine ⟨v.set lv (some ⟨i :: parent.loc, r⟩),
        whileNextSub_bad lv parent body fuel v _ hnext2 hg2, ?_,
        movedAt_set_child lv v i parent.loc r⟩
      rw [Locals.shadow_set]
      simp [sweep, hg2]

/-- A loop of the walk, entered for a parent below which no cursor points: it
ends, and `sweepLoop` describes it. -/
theorem whileLoop_sweep (lv : Level) (body : RecordPtr → Locals → Option Locals)
    (abody : DcmDirectoryRecord → Shadow → Shadow)
    (hbody : BodySpec (lv.depth + 1) body abody) :
    BodySpec lv.depth (fun parent v => whileLoop lv parent body v)
      (fun r a => sweepLoop lv abody r.lowerLevelList a) := by
  intro parent v hv
  cases hcur : v.get lv with
  | none =>
    have h := whileNextSub_sweep lv parent body abody hbody parent.target.lowerLevelList 0
      (parent.target.lowerLevelList.length + 1) v (Nat.lt_succ_self _)
      (by rw [hcur]; rfl) rfl (fun j _ => hv.cons j)
    obtain ⟨w, hw, hsh, hmv⟩ := h
    refine ⟨w, hw, ?_, hmv⟩
    rw [hsh]
    simp [sweepLoop, Locals.shadow_get, hcur]
  | some c =>
    have hstale : parent.nextSub (v.get lv) = none := by
      rw [hcur]
      refine nextSub_stale parent c (fun j hj => hv lv ?_)
      rw [hcur]
      exact ⟨c, [j], rfl, by simp, by simp [hj]⟩
    refine ⟨v.set lv none, whileNextSub_none lv parent body _ v hstale, ?_,
      movedAt_set_none lv v parent.loc⟩
    rw [Locals.shadow_set]
    simp [sweepLoop, Locals.shadow_get, hcur]

/-! ## The four loops -/

theorem fileBody_spec (directoryName : QString) :
    BodySpec (Level.file.depth + 1)
      (fun fileRecord w => some { w with listOfInstances := w.listOfInstances ++
        [instanceFilePath directoryName fileRecord.target.referencedFileName] })
      (appendInstance directoryName) := by
  intro c v _
  refine ⟨_, rfl, rfl, fun lv => ⟨fun _ => ?_, fun _ => Or.inr (Or.inl ?_)⟩⟩ <;>
    cases lv <;> rfl

theorem fileLoop_spec (directoryName : QString) :
    BodySpec Level.file.depth (fileLoop directoryName) (sweepFiles directoryName) :=
  whileLoop_sweep Level.file _ _ (fileBody_spec directoryName)

theorem seriesLoop_spec (directoryName : QString) :
    BodySpec Level.series.depth (seriesLoop directoryName) (sweepSeries directoryName) :=
  whileLoop_sweep Level.series _ _ (fileLoop_spec directoryName)

theorem studyLoop_spec (directoryName : QString) :
    BodySpec Level.study.depth (studyLoop directoryName) (sweepStudies directoryName) :=
  whileLoop_sweep Level.study _ _ (seriesLoop_spec directoryName)

theorem patientLoop_spec (directoryName : QString) :
    BodySpec Level.patient.depth (patientLoop directoryName) (sweepPatients directoryName) :=
  whileLoop_sweep Level.patient _ _ (studyLoop_spec directoryName)

/-- The loops of `addDicomdir` end, and the list they build is the one of the
walk without pointers. -/
theorem collectInstances_eq (rootRecord : DcmDirectoryRecord) (directoryName : QString) :
    collectInstances rootRecord directoryName =
      some (sweepPatients directoryName rootRecord Shadow.initial).listOfInstances := by
  obtain ⟨w, hw, hsh, _⟩ := patientLoop_spec directoryName ⟨[], rootRecord⟩ Locals.initial
    (clear_initial [])
  have e : w.listOfInstances =
      (sweepPatients directoryName rootRecord Shadow.initial).listOfInstances := by
    have := congrArg Shadow.listOfInstances hsh
    exact this
  simp only [collectInstances, hw, Option.map_some', e]

/-! ## The walk without pointers: where paths come from -/

theorem Shadow.listOfInstances_set (a : Shadow) (lv : Level) (b : Bool) :
    (a.set lv b).listOfInstances = a.listOfInstances := by
  cases lv <;> rfl

theorem Shadow.flag_set_self (a : Shadow) (lv : Level) (b : Bool) : (a.set lv b).get lv = b := by
  cases lv <;> rfl

theorem Shadow.get_set_of_ne (a : Shadow) {lv lv2 : Level} (b : Bool) (h : lv2 ≠ lv) :
    (a.set lv b).get lv2 = a.get lv2 := by
  cases lv <;> cases lv2 <;> first | rfl | exact absurd rfl h

theorem Shadow.set_set (a : Shadow) (lv : Level) (b c : Bool) :
    (a.set lv b).set lv c = a.set lv c := by
  cases lv <;> rfl

theorem Shadow.set_of_get (a : Shadow) (lv : Level) (b : Bool) (h : a.get lv = b) :
    a.set lv b = a := by
  cases a; cases lv <;> simp_all [Shadow.set, Shadow.get]

theorem instanceFilePath_eq (directoryName : QString) (r : DcmDirectoryRecord) :
    instanceFilePath directoryName r.referencedFileName = pathOfFile directoryName r := rfl

theorem sweep_mem (lv : Level) (body : DcmDirectoryRecord → Shadow → Shadow)
    (Q : DcmDirectoryRecord → QString → Prop)
    (hbody : ∀ r, lv.good r = true → ∀ a x, x ∈ (body r a).listOfInstances →
      x ∈ a.listOfInstances ∨ Q r x) :
    ∀ (rs : List DcmDirectoryRecord) (a : Shadow) (x : QString),
      x ∈ (sweep lv body rs a).listOfInstances →
      x ∈ a.listOfInstances ∨ ∃ r, r ∈ rs ∧ lv.good r = true ∧ Q r x
  | [], a, x, h => by
    rw [sweep, Shadow.listOfInstances_set] at h
    exact Or.inl h
  | r :: rs, a, x, h => by
    by_cases hg : lv.good r = true
    · rw [sweep, if_pos hg] at h
      rcases sweep_mem lv body Q hbody rs _ x h with h1 | ⟨r2, h2, h3, h4⟩
      · rcases hbody r hg _ x h1 with h5 | h5
        · rw [Shadow.listOfInstances_set] at h5
          exact Or.inl h5
        · exact Or.inr ⟨r, List.mem_cons_self _ _, hg, h5⟩
      · exact Or.inr ⟨r2, List.mem_cons_of_mem _ h2, h3, h4⟩
    · rw [sweep, if_neg hg, Shadow.listOfInstances_set] at h
      exact Or.inl h

theorem sweepLoop_mem (lv : Level) (body : DcmDirectoryRecord → Shadow → Shadow)
    (Q : DcmDirectoryRecord → QString → Prop)
    (hbody : ∀ r, lv.good r = true → ∀ a x, x ∈ (body r a).listOfInstances →
      x ∈ a.listOfInstances ∨ Q r x)
    (rs : List DcmDirectoryRecord) (a : Shadow) (x : QString)
    (h : x ∈ (sweepLoop lv body rs a).listOfInstances) :
    x ∈ a.listOfInstances ∨ ∃ r, r ∈ rs ∧ lv.good r = true ∧ Q r x := by
  unfold sweepLoop at h
  split at h
  · rw [Shadow.listOfInstances_set] at h
    exact Or.inl h
  · exact sweep_mem lv body Q hbody rs a x h

/-- Every path the walk appends comes from a file record that passes the test
of the file level and lies below records that pass the tests of their levels. -/
theorem sweepPatients_mem (directoryName : QString) (rootRecord : DcmDirectoryRecord)
    (a : Shadow) (x : QString)
    (h : x ∈ (sweepPatients directoryName rootRecord a).listOfInstances) :
    x ∈ a.listOfInstances ∨
      ∃ p, p ∈ rootRecord.lowerLevelList ∧ Level.patient.good p = true ∧
      ∃ st, st ∈ p.lowerLevelList ∧ Level.study.good st = true ∧
      ∃ se, se ∈ st.lowerLevelList ∧ Level.series.good se = true ∧
      ∃ f, f ∈ se.lowerLevelList ∧ Level.file.good f = true ∧
        x = pathOfFile directoryName f := by
  refine sweepLoop_mem Level.patient _
    (fun p x => ∃ st, st ∈ p.lowerLevelList ∧ Level.study.good st = true ∧
      ∃ se, se ∈ st.lowerLevelList ∧ Level.series.good se = true ∧
      ∃ f, f ∈ se.lowerLevelList ∧ Level.file.good f = true ∧
        x = pathOfFile directoryName f) ?_ _ a x h
  intro p _ a x h
  refine sweepLoop_mem Level.study _
    (fun st x => ∃ se, se ∈ st.lowerLevelList ∧ Level.series.good se = true ∧
      ∃ f, f ∈ se.lowerLevelList ∧ Level.file.good f = true ∧
        x = pathOfFile directoryName f) ?_ _ a x h
  intro st _ a x h
  refine sweepLoop_mem Level.series _
    (fun se x => ∃ f, f ∈ se.lowerLevelList ∧ Level.file.good f = true ∧
        x = pathOfFile directoryName f) ?_ _ a x h
  intro se _ a x h
  refine sweepLoop_mem Level.file _ (fun f x => x = pathOfFile directoryName f) ?_ _ a x h
  intro f _ a x h
  simpa [appendInstance, instanceFilePath_eq] using h

/-! ## The walk without pointers: catalogs without invalid records -/

theorem Shadow.quiet_set (a : Shadow) (lv : Level) (b : Bool) (h : a.quiet (lv.depth + 1)) :
    (a.set lv b).quiet (lv.depth + 1) := by
  intro lv2 h2
  rw [Shadow.get_set_of_ne a b (by rintro rfl; omega)]
  exact h lv2 h2

theorem Shadow.quiet_addInstances (a : Shadow) (d : Nat) (l : List QString) (h : a.quiet d) :
    (a.addInstances l).quiet d := by
  intro lv h2
  have := h lv h2
  cases lv <;> exact this

theorem Shadow.addInstances_append (a : Shadow) (k l : List QString) :
    (a.addInstances k).addInstances l = a.addInstances (k ++ l) := by
  simp [Shadow.addInstances]

theorem Shadow.set_addInstances (a : Shadow) (lv : Level) (b : Bool) (l : List QString) :
    (a.addInstances l).set lv b = (a.set lv b).addInstances l := by
  cases lv <;> rfl

theorem sweep_allGood (lv : Level) (body : DcmDirectoryRecord → Shadow → Shadow)
    (g : DcmDirectoryRecord → List QString) :
    ∀ (rs : List DcmDirectoryRecord) (a : Shadow),
      (∀ r, r ∈ rs → lv.good r = true) →
      (∀ r, r ∈ rs → ∀ b : Shadow, b.quiet (lv.depth + 1) → body r b = b.addInstances (g r)) →
      a.quiet (lv.depth + 1) →
      sweep lv body rs a = (a.set lv false).addInstances (rs.flatMap g)
  | [], a, _, _, _ => by simp [sweep, Shadow.addInstances]
  | r :: rs, a, hgood, hbody, hq => by
    have hg : lv.good r = true := hgood r (List.mem_cons_self _ _)
    have hb := hbody r (List.mem_cons_self _ _) (a.set lv true) (Shadow.quiet_set a lv true hq)
    have ih := sweep_allGood lv body g rs ((a.set lv true).addInstances (g r))
      (fun r2 h2 => hgood r2 (List.mem_cons_of_mem _ h2))
      (fun r2 h2 => hbody r2 (List.mem_cons_of_mem _ h2))
      (Shadow.quiet_addInstances _ _ _ (Shadow.quiet_set a lv true hq))
    rw [sweep, if_pos hg, hb, ih, Shadow.set_addInstances, Shadow.set_set,
      Shadow.addInstances_append, List.flatMap_cons]

theorem sweepLoop_allGood (lv : Level) (body : DcmDirectoryRecord → Shadow → Shadow)
    (g : DcmDirectoryRecord → List QString) (rs : List DcmDirectoryRecord) (a : Shadow)
    (hgood : ∀ r, r ∈ rs → lv.good r = true)
    (hbody : ∀ r, r ∈ rs → ∀ b : Shadow, b.quiet (lv.depth + 1) →
      body r b = b.addInstances (g r))
    (hq : a.quiet lv.depth) :
    sweepLoop lv body rs a = a.addInstances (rs.flatMap g) := by
  have h0 : a.get lv = false := hq lv (Nat.le_refl _)
  have hq2 : a.quiet (lv.depth + 1) := fun lv2 h2 => hq lv2 (by omega)
  rw [sweepLoop, h0, if_neg (by simp), sweep_allGood lv body g rs a hgood hbody hq2,
    Shadow.set_of_get a lv false h0]

theorem sweepFiles_wellFormed (directoryName : QString) (se : DcmDirectoryRecord)
    (h : wellFormedSeries se = true) (a : Shadow) (hq : a.quiet Level.file.depth) :
    sweepFiles directoryName se a =
      a.addInstances (se.lowerLevelList.map (pathOfFile directoryName)) := by
  rw [List.map_eq_flatMap]
  refine sweepLoop_allGood Level.file _ _ _ a ?_ ?_ hq
  · intro r hr
    exact List.all_eq_true.mp h r hr
  · intro r _ b _
    rfl

theorem sweepSeries_wellFormed (directoryName : QString) (st : DcmDirectoryRecord)
    (h : wellFormedStudy st = true) (a : Shadow) (hq : a.quiet Level.series.depth) :
    sweepSeries directoryName st a =
      a.addInstances (st.lowerLevelList.flatMap fun se =>
        se.lowerLevelList.map (pathOfFile directoryName)) := by
  have h2 := List.all_eq_true.mp h
  refine sweepLoop_allGood Level.series _ _ _ a ?_ ?_ hq
  · intro r hr
    exact (Bool.and_eq_true _ _ ▸ h2 r hr).1
  · intro r hr b hb
    exact sweepFiles_wellFormed directoryName r (Bool.and_eq_true _ _ ▸ h2 r hr).2 b hb

theorem sweepStudies_wellFormed (directoryName : QString) (p : DcmDirectoryRecord)
    (h : wellFormedPatient p = true) (a : Shadow) (hq : a.quiet Level.study.depth) :
    sweepStudies directoryName p a =
      a.addInstances (p.lowerLevelList.flatMap fun st => st.lowerLevelList.flatMap fun se =>
        se.lowerLevelList.map (pathOfFile directoryName)) := by
  have h2 := List.all_eq_true.mp h
  refine sweepLoop_allGood Level.study _ _ _ a ?_ ?_ hq
  · intro r hr
    exact (Bool.and_eq_true _ _ ▸ h2 r hr).1
  · intro r hr b hb
    exact sweepSeries_wellFormed directoryName r (Bool.and_eq_true _ _ ▸ h2 r hr).2 b hb

theorem sweepPatients_wellFormed (directoryName : QString) (root : DcmDirectoryRecord)
    (h : wellFormed root = true) (a : Shadow) (hq : a.quiet Level.patient.depth) :
    sweepPatients directoryName root a =
      a.addInstances (root.lowerLevelList.flatMap fun p => p.lowerLevelList.flatMap fun st =>
        st.lowerLevelList.flatMap fun se =>
          se.lowerLevelList.map (pathOfFile directoryName)) := by
  have h2 := List.all_eq_true.mp h
  refine sweepLoop_allGood Level.patient _ _ _ a ?_ ?_ hq
  · intro r hr
    exact (Bool.and_eq_true _ _ ▸ h2 r hr).1
  · intro r hr b hb
    exact sweepStudies_wellFormed directoryName r (Bool.and_eq_true _ _ ▸ h2 r hr).2 b hb

/-! ## The walk without pointers: records after an invalid sibling -/

theorem Level.good_withLower (lv : Level) (r : DcmDirectoryRecord)
    (l : List DcmDirectoryRecord) : lv.good (r.withLower l) = lv.good r := by
  cases r; cases lv <;> rfl

theorem lowerLevelList_withLower (r : DcmDirectoryRecord) (l : List DcmDirectoryRecord) :
    (r.withLower l).lowerLevelList = l := by
  cases r; rfl

theorem withLower_lowerLevelList (r : DcmDirectoryRecord) :
    r.withLower r.lowerLevelList = r := by
  cases r; rfl

/-- A loop over children of which one is invalid ends like the loop over the
children before that one, except that its cursor is left on the invalid child. -/
theorem sweep_append_bad (lv : Level) (body : DcmDirectoryRecord → Shadow → Shadow) :
    ∀ (pre : List DcmDirectoryRecord) (bad : DcmDirectoryRecord)
      (post : List DcmDirectoryRecord) (a : Shadow),
      (∀ p, p ∈ pre → lv.good p = true) → lv.good bad = false →
      sweep lv body (pre ++ bad :: post) a = (sweep lv body pre a).set lv true
  | [], bad, post, a, _, hb => by
    simp [sweep, hb, Shadow.set_set]
  | p :: pre, bad, post, a, hp, hb => by
    have hg : lv.good p = true := hp p (List.mem_cons_self _ _)
    have ih := sweep_append_bad lv body pre bad post (body p (a.set lv true))
      (fun q hq => hp q (List.mem_cons_of_mem _ hq)) hb
    rw [List.cons_append, sweep, if_pos hg, ih, sweep, if_pos hg]

theorem sweep_uptoInvalid (lv : Level) (body body2 : DcmDirectoryRecord → Shadow → Shadow)
    (f : DcmDirectoryRecord → DcmDirectoryRecord) (hf : ∀ r, lv.good (f r) = lv.good r)
    (hb : ∀ r a, body2 (f r) a = body r a) :
    ∀ (rs : List DcmDirectoryRecord) (a : Shadow),
      sweep lv body2 ((uptoInvalid lv rs).map f) a = sweep lv body rs a
  | [], _ => rfl
  | r :: rs, a => by
    by_cases hg : lv.good r = true
    · simp only [uptoInvalid, hg, if_true, List.map_cons, sweep, hf, hb,
        sweep_uptoInvalid lv body body2 f hf hb rs]
    · simp only [uptoInvalid, hg, if_false, List.map_cons, List.map_nil, sweep, hf]
      simp

theorem sweepLoop_uptoInvalid (lv : Level) (body body2 : DcmDirectoryRecord → Shadow → Shadow)
    (f : DcmDirectoryRecord → DcmDirectoryRecord) (hf : ∀ r, lv.good (f r) = lv.good r)
    (hb : ∀ r a, body2 (f r) a = body r a) (rs : List DcmDirectoryRecord) (a : Shadow) :
    sweepLoop lv body2 ((uptoInvalid lv rs).map f) a = sweepLoop lv body rs a := by
  simp only [sweepLoop, sweep_uptoInvalid lv body body2 f hf hb rs a]

theorem sweepFiles_cut (directoryName : QString) (se : DcmDirectoryRecord) (a : Shadow) :
    sweepFiles directoryName (cutSeries se) a = sweepFiles directoryName se a := by
  have h := sweepLoop_uptoInvalid Level.file (appendInstance directoryName)
    (appendInstance directoryName) id (fun _ => rfl) (fun _ _ => rfl) se.lowerLevelList a
  rw [List.map_id] at h
  rw [sweepFiles, cutSeries, lowerLevelList_withLower, h, sweepFiles]

theorem sweepSeries_cut (directoryName : QString) (st : DcmDirectoryRecord) (a : Shadow) :
    sweepSeries directoryName (cutStudy st) a = sweepSeries directoryName st a := by
  rw [sweepSeries, cutStudy, lowerLevelList_withLower, sweepSeries]
  exact sweepLoop_uptoInvalid Level.series _ _ cutSeries
    (fun r => Level.good_withLower _ r _) (sweepFiles_cut directoryName) _ a

theorem sweepStudies_cut (directoryName : QString) (p : DcmDirectoryRecord) (a : Shadow) :
    sweepStudies directoryName (cutPatient p) a = sweepStudies directoryName p a := by
  rw [sweepStudies, cutPatient, lowerLevelList_withLower, sweepStudies]
  exact sweepLoop_uptoInvalid Level.study _ _ cutStudy
    (fun r => Level.good_withLower _ r _) (sweepSeries_cut directoryName) _ a

theorem sweepPatients_cut (directoryName : QString) (root : DcmDirectoryRecord) (a : Shadow) :
    sweepPatients directoryName (cutCatalog root) a = sweepPatients directoryName root a := by
  rw [sweepPatients, cutCatalog, lowerLevelList_withLower, sweepPatients]
  exact sweepLoop_uptoInvalid Level.patient _ _ cutPatient
    (fun r => Level.good_withLower _ r _) (sweepStudies_cut directoryName) _ a

/-! ## The import loop under any cancel requests -/

theorem foundCounts_foreachFile (env : CancelRequests) (size : Nat) (src dst : QString) :
    ∀ (files : List QString) (i : Nat) (d : ctkDICOMIndexerPrivate),
      foundCounts (foreachFile env size src dst files i d).2 = []
  | [], _, _ => rfl
  | p :: rest, i, d => by
    have ih := foundCounts_foreachFile env size src dst rest (i + 1)
    simp only [foreachFile, addFile]
    split <;> simp [foundCounts, foundCounts_append, ih]

theorem foundCounts_addListOfFiles (env : CancelRequests) (files : List QString)
    (src dst : QString) (d : ctkDICOMIndexerPrivate) :
    foundCounts (addListOfFiles env files src dst d).2 = [] := by
  simp [addListOfFiles, foundCounts_append, foundCounts_foreachFile, foundCounts]

theorem insertedPaths_foreachFile (env : CancelRequests) (size : Nat) (src dst : QString) :
    ∀ (files : List QString) (i : Nat) (d : ctkDICOMIndexerPrivate),
      ∃ k, insertedPaths (foreachFile env size src dst files i d).2 = files.take k
  | [], _, _ => ⟨0, rfl⟩
  | p :: rest, i, d => by
    simp only [foreachFile, addFile]
    split
    · exact ⟨1, by simp [insertedPaths]⟩
    · obtain ⟨k, hk⟩ := insertedPaths_foreachFile env size src dst rest (i + 1)
        (handOver (env.onInsert i) (handOver (env.onIndexingFilePath i)
          (handOver (env.onProgress i) d)))
      exact ⟨k + 1, by simp [insertedPaths, insertedPaths_append, hk]⟩

theorem insertedPaths_addListOfFiles (env : CancelRequests) (files : List QString)
    (src dst : QString) (d : ctkDICOMIndexerPrivate) :
    ∃ k, insertedPaths (addListOfFiles env files src dst d).2 = files.take k := by
  obtain ⟨k, hk⟩ := insertedPaths_foreachFile env files.length src dst files 0 ⟨false⟩
  exact ⟨k, by simp [addListOfFiles, insertedPaths_append, hk, insertedPaths]⟩

theorem insertedPaths_addListOfFiles_quiet (env : CancelRequests) (files : List QString)
    (src dst : QString) (d : ctkDICOMIndexerPrivate)
    (hq : ∀ j, j < files.length → env.duringFile j = false) :
    insertedPaths (addListOfFiles env files src dst d).2 = files := by
  rw [addListOfFiles_quiet env files src dst d hq]
  simp [insertedPaths_append, insertedPaths_eventsFrom, insertedPaths]

theorem addListOfFiles_nil (env : CancelRequests) (src dst : QString)
    (d : ctkDICOMIndexerPrivate) :
    (addListOfFiles env [] src dst d).2 = [Event.indexingComplete] := rfl

/-! ## Progress values while the product fits into an `int` -/

theorem toInt32_of_fits (x : Int) (h0 : 0 ≤ x) (h1 : x ≤ 2147483647) : toInt32 x = x := by
  unfold toInt32
  omega

/-- As long as `100 * i` fits into an `int`, the percentage is the floor of
`100 * i / size`. -/
theorem percentOf_eq_floor (i size : Nat) (h : 100 * i ≤ 2147483647) :
    percentOf i size = ((100 * i / size : Nat) : Int) := by
  unfold percentOf
  rw [toInt32_of_fits (100 * (i : Int)) (by omega) (by omega), Int.ofNat_tdiv]
  norm_cast

/-- Without cancel request and with at most 21474837 paths, the progress values
are the floors of `100 * i / n` for `i = 0, ..., n - 1`, in this order. -/
theorem progressValues_addListOfFiles_fits (env : CancelRequests) (files : List QString)
    (src dst : QString) (d : ctkDICOMIndexerPrivate)
    (hq : ∀ j, j < files.length → env.duringFile j = false)
    (hn : files.length ≤ 21474837) :
    progressValues (addListOfFiles env files src dst d).2 =
      (List.range files.length).map (fun i => ((100 * i / files.length : Nat) : Int)) := by
  rw [addListOfFiles_quiet env files src dst d hq, progressValues_append,
    progressValues_eventsFrom, List.range_eq_range']
  simp only [progressValues, List.append_nil]
  refine List.map_congr_left (fun i hi => ?_)
  have hi2 : i < files.length := by
    have := List.mem_range'_1.mp hi
    omega
  exact percentOf_eq_floor i files.length (by omega)

/-! ## Further general facts -/

theorem quiet_initial (d : Nat) : Shadow.initial.quiet d := by
  intro lv _
  cases lv <;> rfl

theorem referencedFileName_of_good (f : DcmDirectoryRecord) (h : Level.file.good f = true) :
    ∃ name, f.ReferencedFileID = some name ∧ f.referencedFileName = name := by
  obtain ⟨a, b, c, d, e, l⟩ := f
  cases e with
  | none => simp [Level.good, DcmDirectoryRecord.ReferencedFileID] at h
  | some name => exact ⟨name, rfl, rfl⟩

theorem addDicomdir_root (env : CancelRequests) (dicomDir : DcmDicomDir)
    (rootRecord : DcmDirectoryRecord) (directoryName dst : QString)
    (d : ctkDICOMIndexerPrivate) (hroot : dicomDir.rootRecord = some rootRecord) :
    addDicomdir env dicomDir directoryName dst d =
      some ((addListOfFiles env
          (sweepPatients directoryName rootRecord Shadow.initial).listOfInstances
          directoryName dst (handOver env.onFoundFilesToIndex d)).1,
        Event.foundFilesToIndex
          ((sweepPatients directoryName rootRecord Shadow.initial).listOfInstances.length : Int) ::
        (addListOfFiles env
          (sweepPatients directoryName rootRecord Shadow.initial).listOfInstances
          directoryName dst (handOver env.onFoundFilesToIndex d)).2) := by
  simp only [addDicomdir, hroot, collectInstances_eq]

/-- The branch of `addDicomdir` behind the guard `rootRecord != NULL`: with a
`NULL` pointer nothing at all would happen.  The pointer is the address of the
reference `getRootRecord()` returns, so a call does not get there. -/
theorem addDicomdir_null_guard (env : CancelRequests) (errorGood : Bool)
    (directoryName dst : QString) (d : ctkDICOMIndexerPrivate) :
    addDicomdir env ⟨errorGood, none⟩ directoryName dst d = some (d, []) := rfl

/-! ## The claims -/

/-- C1, at the failing input: for a list of 21474838 paths and no cancel
request, the value passed to `progress` for the path at position 21474837 is
`-99`, because `100 * 21474837` does not fit into an `int`; the floor of
`100 * 21474837 / 21474838` is `99`. -/
theorem addListOfFiles_progress_wraps :
    (progressValues (addListOfFiles CancelRequests.never (List.replicate 21474838 "f")
      "src" "" ctkDICOMIndexerPrivate.fresh).2)[21474837]? = some (-99) ∧
    (100 * 21474837 : Int) / 21474838 = 99 := by
  refine ⟨?_, by decide⟩
  rw [addListOfFiles_quiet CancelRequests.never _ "src" "" _ (fun _ _ => rfl),
    progressValues_append, progressValues_eventsFrom, List.length_replicate]
  have hlt : 21474837 < ((List.range' 0 21474838).map
      (fun j => percentOf j 21474838)).length := by
    rw [List.length_map, List.length_range']; decide
  rw [List.getElem?_append_left hlt, List.getElem?_map, List.getElem?_range' _ _ (by decide)]
  decide

/-- C2: if the first `cancel()` of the call comes while the path at position `k`
is processed, the trace consists of the three events (progress, indexingFilePath,
insert) of the paths at positions `0..k`, in order, followed by
`indexingComplete`: insert is invoked exactly `k+1` times, on the first `k+1`
paths, progress is emitted for positions `0..k` only, and there is exactly one
`indexingComplete`, at the end. -/
theorem addListOfFiles_cancel_at (env : CancelRequests) (files : List QString)
    (src dst : QString) (d : ctkDICOMIndexerPrivate) (k : Nat) (hk : k < files.length)
    (hq : ∀ j, j < k → env.duringFile j = false) (hc : env.duringFile k = true) :
    (addListOfFiles env files src dst d).2 =
        eventsFrom files.length src dst 0 (files.take (k + 1)) ++ [Event.indexingComplete] ∧
      insertedPaths (addListOfFiles env files src dst d).2 = files.take (k + 1) ∧
      (insertedPaths (addListOfFiles env files src dst d).2).length = k + 1 ∧
      announcedPaths (addListOfFiles env files src dst d).2 = files.take (k + 1) ∧
      progressValues (addListOfFiles env files src dst d).2 =
        (List.range' 0 (k + 1)).map (fun i => percentOf i files.length) ∧
      completeCount (addListOfFiles env files src dst d).2 = 1 ∧
      (addListOfFiles env files src dst d).2.getLast? = some Event.indexingComplete ∧
      (addListOfFiles env files src dst d).1.Canceled = true := by
  have hlen : (files.take (k + 1)).length = k + 1 := by
    rw [List.length_take]; omega
  rw [addListOfFiles_cancel env files src dst d k hk hq hc]
  refine ⟨rfl, ?_, ?_, ?_, ?_, ?_, ?_, rfl⟩
  · simp [insertedPaths_append, insertedPaths_eventsFrom, insertedPaths]
  · simp only [insertedPaths_append, insertedPaths_eventsFrom, insertedPaths,
      List.append_nil, hlen]
  · simp [announcedPaths_append, announcedPaths_eventsFrom, announcedPaths]
  · simp only [progressValues_append, progressValues_eventsFrom, progressValues,
      List.append_nil, hlen]
  · simp [completeCount, count_complete_eventsFrom]
  · simp

/-- Witness for C2: three paths, `cancel()` called from inside the insert of the
second one. -/
theorem addListOfFiles_cancel_at_witness :
    (addListOfFiles (cancelDuringInsert 1) ["a", "b", "c"] "src" "dst" ⟨false⟩).2 =
        eventsFrom 3 "src" "dst" 0 (["a", "b", "c"].take (1 + 1)) ++ [Event.indexingComplete] ∧
      insertedPaths (addListOfFiles (cancelDuringInsert 1) ["a", "b", "c"] "src" "dst"
        ⟨false⟩).2 = ["a", "b"] :=
  have h := addListOfFiles_cancel_at (cancelDuringInsert 1) ["a", "b", "c"] "src" "dst"
    ⟨false⟩ 1 (by decide) (by decide) (by decide)
  ⟨h.1, h.2.1⟩

/-- C3: whatever the state of the indexer (in particular with `Canceled` left
true), a call during which nobody cancels behaves exactly like the same call on a
freshly constructed indexer, invokes insert on every path of the list, in order,
and ends with `Canceled` false. -/
theorem addListOfFiles_starts_afresh (env : CancelRequests) (files : List QString)
    (src dst : QString) (d : ctkDICOMIndexerPrivate)
    (hq : ∀ j, j < files.length → env.duringFile j = false)
    (hcomplete : env.onIndexingComplete = false) :
    addListOfFiles env files src dst d =
        addListOfFiles env files src dst ctkDICOMIndexerPrivate.fresh ∧
      insertedPaths (addListOfFiles env files src dst d).2 = files ∧
      (addListOfFiles env files src dst d).2 =
        eventsFrom files.length src dst 0 files ++ [Event.indexingComplete] ∧
      (addListOfFiles env files src dst d).1.Canceled = false := by
  rw [addListOfFiles_quiet env files src dst d hq,
    addListOfFiles_quiet env files src dst _ hq, hcomplete]
  refine ⟨rfl, ?_, rfl, rfl⟩
  simp [insertedPaths_append, insertedPaths_eventsFrom, insertedPaths]

/-- Witness for C3: the indexer was cancelled before (`Canceled` is true), the
new list has two paths and nobody cancels. -/
theorem addListOfFiles_starts_afresh_witness :
    insertedPaths (addListOfFiles CancelRequests.never ["a", "b"] "src" "" ⟨true⟩).2 =
        ["a", "b"] ∧
      (addListOfFiles CancelRequests.never ["a", "b"] "src" "" ⟨true⟩).1.Canceled = false :=
  have h := addListOfFiles_starts_afresh CancelRequests.never ["a", "b"] "src" "" ⟨true⟩
    (by decide) (by decide)
  ⟨h.2.1, h.2.2.2⟩

/-- C4: in a catalog where every patient has a name, every study a study UID,
every series a series UID and every file record both fields, the path list
built by `addDicomdir` has exactly one path per file record, in depth-first
document order, and the path is `directoryName + "/" + referencedFileName` with
every backslash replaced by `/`. -/
theorem collectInstances_wellFormed (rootRecord : DcmDirectoryRecord) (directoryName : QString)
    (h : wellFormed rootRecord = true) :
    collectInstances rootRecord directoryName =
      some ((fileRecords rootRecord).map fun f =>
        replaceBackslash (directoryName ++ "/" ++ f.referencedFileName)) := by
  rw [collectInstances_eq, sweepPatients_wellFormed directoryName rootRecord h Shadow.initial
    (quiet_initial _)]
  simp only [Shadow.addInstances, Shadow.initial, List.nil_append, fileRecords,
    List.map_flatMap]
  rfl

/-- Witness for C4: the catalog with one patient, one study, one series and two
file records yields exactly two paths. -/
theorem collectInstances_wellFormed_witness :
    wellFormed smallCatalog = true ∧
      collectInstances smallCatalog "root" = some ["root/IMG/F1", "root/IMG/F2"] :=
  ⟨by decide, (collectInstances_wellFormed smallCatalog "root" (by decide)).trans (by decide)⟩

/-- C5: if the patient record `bad` is the first one without a name, the path
list is the one of the catalog that ends before `bad`, and every path in it
comes from a patient before `bad`; and at every level, removing the records
that follow an invalid sibling under the same parent leaves the path list
unchanged. -/
theorem collectInstances_stops_at_invalid (rootRecord : DcmDirectoryRecord)
    (directoryName : QString) (pre : List DcmDirectoryRecord) (bad : DcmDirectoryRecord)
    (post : List DcmDirectoryRecord)
    (hsplit : rootRecord.lowerLevelList = pre ++ bad :: post)
    (hpre : ∀ p, p ∈ pre → p.PatientName.isSome = true)
    (hbad : bad.PatientName.isSome = false) :
    collectInstances rootRecord directoryName =
        collectInstances (rootRecord.withLower pre) directoryName ∧
      (∃ l, collectInstances rootRecord directoryName = some l ∧
        ∀ x, x ∈ l →
          ∃ p, p ∈ pre ∧ p.PatientName.isSome = true ∧
          ∃ st, st ∈ p.lowerLevelList ∧ st.StudyInstanceUID.isSome = true ∧
          ∃ se, se ∈ st.lowerLevelList ∧ se.SeriesInstanceUID.isSome = true ∧
          ∃ f, f ∈ se.lowerLevelList ∧
            x = replaceBackslash (directoryName ++ "/" ++ f.referencedFileName)) ∧
      (∀ r : DcmDirectoryRecord,
        collectInstances (cutCatalog r) directoryName = collectInstances r directoryName) := by
  have hlist : (sweepPatients directoryName rootRecord Shadow.initial).listOfInstances =
      (sweepPatients directoryName (rootRecord.withLower pre) Shadow.initial).listOfInstances := by
    have h0 : Shadow.initial.get Level.patient = false := rfl
    simp only [sweepPatients, sweepLoop, h0, lowerLevelList_withLower, hsplit]
    rw [sweep_append_bad Level.patient _ pre bad post Shadow.initial hpre hbad]
    simp [Shadow.listOfInstances_set]
  have hfirst : collectInstances rootRecord directoryName =
      collectInstances (rootRecord.withLower pre) directoryName := by
    rw [collectInstances_eq, collectInstances_eq, hlist]
  refine ⟨hfirst, ⟨_, hfirst.trans (collectInstances_eq _ _), ?_⟩, ?_⟩
  · intro x hx
    rcases sweepPatients_mem directoryName _ Shadow.initial x hx with h | h
    · simp [Shadow.initial] at h
    · rw [lowerLevelList_withLower] at h
      obtain ⟨p, hp, hpg, st, hst, hstg, se, hse, hseg, f, hf, _, hx⟩ := h
      exact ⟨p, hp, hpg, st, hst, hstg, se, hse, hseg, f, hf, hx⟩
  · intro r
    rw [collectInstances_eq, collectInstances_eq, sweepPatients_cut]

/-- Witness for C5: three patients with one file each, the second without a
name; only the file of the first patient is listed. -/
theorem collectInstances_stops_at_invalid_witness :
    collectInstances secondPatientNameless "root" =
        collectInstances (secondPatientNameless.withLower [patientWithFile "A" "a"]) "root" ∧
      collectInstances (secondPatientNameless.withLower [patientWithFile "A" "a"]) "root" =
        some ["root/a"] :=
  ⟨(collectInstances_stops_at_invalid secondPatientNameless "root" [patientWithFile "A" "a"]
      (blankRec [studyRec "1.2.2" [seriesRec "1.2.2.1" [fileRec "1.2.2.1.1" "z"]]])
      [patientWithFile "C" "c"] rfl
      (by intro p hp; rw [List.mem_singleton] at hp; subst hp; rfl) rfl).1,
    by decide⟩

/-- C6: the loops of `addDicomdir` end, and every path of the list they build
comes from a file record that has both the referenced SOP instance and the
referenced file, below a series record with a series UID, below a study record
with a study UID, below a patient record with a name. -/
theorem collectInstances_only_valid (rootRecord : DcmDirectoryRecord)
    (directoryName : QString) :
    ∃ l, collectInstances rootRecord directoryName = some l ∧
      ∀ x, x ∈ l →
        ∃ p, p ∈ rootRecord.lowerLevelList ∧ p.PatientName.isSome = true ∧
        ∃ st, st ∈ p.lowerLevelList ∧ st.StudyInstanceUID.isSome = true ∧
        ∃ se, se ∈ st.lowerLevelList ∧ se.SeriesInstanceUID.isSome = true ∧
        ∃ f, f ∈ se.lowerLevelList ∧ f.ReferencedSOPInstanceUIDInFile.isSome = true ∧
        ∃ name, f.ReferencedFileID = some name ∧
          x = replaceBackslash (directoryName ++ "/" ++ name) := by
  refine ⟨_, collectInstances_eq rootRecord directoryName, ?_⟩
  intro x hx
  rcases sweepPatients_mem directoryName _ Shadow.initial x hx with h | h
  · simp [Shadow.initial] at h
  · obtain ⟨p, hp, hpg, st, hst, hstg, se, hse, hseg, f, hf, hfg, hx⟩ := h
    obtain ⟨name, hname, hname2⟩ := referencedFileName_of_good f hfg
    have hsop : f.ReferencedSOPInstanceUIDInFile.isSome = true := by
      have := hfg
      simp only [Level.good, Bool.and_eq_true] at this
      exact this.1
    refine ⟨p, hp, hpg, st, hst, hstg, se, hse, hseg, f, hf, hsop, name, hname, ?_⟩
    rw [hx, pathOfFile, hname2]

/-- C7, counterexample: no `DICOMDIR`, the iterator finds two files, and
`cancel()` is called from inside the insert of the first: only the first file is
inserted, not all enumerated files. -/
theorem addDirectory_cancelled_flat_scan :
    (addDirectory (cancelDuringInsert 0) flatDirectory "root" ""
        ctkDICOMIndexerPrivate.fresh).map (fun out => insertedPaths out.2) = some ["root/a"] ∧
      flatDirectory.iteratedFiles = ["root/a", "root/b"] := by
  decide

/-- C7, amended: with a `DICOMDIR` entry `addDirectory` is the call of
`addDicomdir` with the same arguments, whatever the iterator would find, and the
inserted paths are the first paths of the catalog walk, all of them when nobody
cancels; without a `DICOMDIR` entry the inserted paths are the first of the
enumerated files, in enumeration order, all of them when nobody cancels. -/
theorem addDirectory_routing (env : CancelRequests) (fs : DirectoryState)
    (directoryName dst : QString) (d : ctkDICOMIndexerPrivate) :
    (fs.existsDICOMDIR = true →
      addDirectory env fs directoryName dst d =
        addDicomdir env fs.dicomDir directoryName dst d) ∧
    (fs.existsDICOMDIR = true → ∀ rootRecord, fs.dicomDir.rootRecord = some rootRecord →
      ∃ l out, collectInstances rootRecord directoryName = some l ∧
        addDirectory env fs directoryName dst d = some out ∧
        (∃ k, insertedPaths out.2 = l.take k) ∧
        ((∀ j, j < l.length → env.duringFile j = false) → insertedPaths out.2 = l)) ∧
    (fs.existsDICOMDIR = false →
      ∃ out, addDirectory env fs directoryName dst d = some out ∧
        (∃ k, insertedPaths out.2 = fs.iteratedFiles.take k) ∧
        ((∀ j, j < fs.iteratedFiles.length → env.duringFile j = false) →
          insertedPaths out.2 = fs.iteratedFiles)) := by
  refine ⟨fun h => by simp [addDirectory, h], fun h rootRecord hroot => ?_, fun h => ?_⟩
  · have hadd := addDicomdir_root env fs.dicomDir rootRecord directoryName dst d hroot
    have hsame : addDirectory env fs directoryName dst d =
        addDicomdir env fs.dicomDir directoryName dst d := by simp [addDirectory, h]
    rw [← hsame] at hadd
    refine ⟨_, _, collectInstances_eq rootRecord directoryName, hadd, ?_, ?_⟩
    · obtain ⟨k, hk⟩ := insertedPaths_addListOfFiles env
        (sweepPatients directoryName rootRecord Shadow.initial).listOfInstances
        directoryName dst (handOver env.onFoundFilesToIndex d)
      exact ⟨k, by simpa [insertedPaths] using hk⟩
    · intro hq
      simpa [insertedPaths] using insertedPaths_addListOfFiles_quiet env _ directoryName dst
        (handOver env.onFoundFilesToIndex d) hq
  · have hadd : addDirectory env fs directoryName dst d =
        some ((addListOfFiles env fs.iteratedFiles directoryName dst
            (handOver env.onFoundFilesToIndex d)).1,
          Event.foundFilesToIndex (fs.iteratedFiles.length : Int) ::
            (addListOfFiles env fs.iteratedFiles directoryName dst
              (handOver env.onFoundFilesToIndex d)).2) := by
      simp only [addDirectory, h]
      rfl
    refine ⟨_, hadd, ?_, ?_⟩
    · obtain ⟨k, hk⟩ := insertedPaths_addListOfFiles env fs.iteratedFiles
        directoryName dst (handOver env.onFoundFilesToIndex d)
      exact ⟨k, by simpa [insertedPaths] using hk⟩
    · intro hq
      simpa [insertedPaths] using insertedPaths_addListOfFiles_quiet env _ directoryName dst
        (handOver env.onFoundFilesToIndex d) hq

/-- Witness for C7: a directory with a `DICOMDIR` and a stray file is imported
exactly like its catalog; a directory without one has all its files inserted
when nobody cancels. -/
theorem addDirectory_routing_witness :
    addDirectory CancelRequests.never catalogDirectory "root" "" ⟨false⟩ =
        addDicomdir CancelRequests.never catalogDirectory.dicomDir "root" "" ⟨false⟩ ∧
      ∃ out, addDirectory CancelRequests.never flatDirectory "root" "" ⟨false⟩ = some out ∧
        insertedPaths out.2 = ["root/a", "root/b"] :=
  have h := addDirectory_routing CancelRequests.never catalogDirectory "root" "" ⟨false⟩
  have g := addDirectory_routing CancelRequests.never flatDirectory "root" "" ⟨false⟩
  ⟨h.1 rfl, (g.2.2 rfl).imp fun _ hout => ⟨hout.1, hout.2.2 (by decide)⟩⟩

/-- C8, at the failing input: for a list of 21474838 paths and no cancel
request, the three consecutive events of the path at position 21474837 are
`progress(-99)`, `indexingFilePath`, `insert`; the claim has `progress(99)` there. -/
theorem addListOfFiles_iteration_wraps :
    (((addListOfFiles CancelRequests.never (List.replicate 21474838 "f")
      "src" "" ctkDICOMIndexerPrivate.fresh).2.drop (3 * 21474837)).take 3) =
      [Event.progress (-99), Event.indexingFilePath "f",
        Event.insert "f" false true true "src" ""] := by
  rw [addListOfFiles_quiet CancelRequests.never _ "src" "" _ (fun _ _ => rfl)]
  have hle : 3 * 21474837 ≤ (eventsFrom (List.replicate 21474838 "f").length "src" ""
      0 (List.replicate 21474838 "f")).length := by
    rw [length_eventsFrom, List.length_replicate]; decide
  have h1 : (21474838 - 21474837 : Nat) = 1 := by decide
  rw [List.drop_append_of_le_length hle, drop_eventsFrom, List.drop_replicate, h1,
    List.length_replicate]
  decide

/-- C9: a flat scan and a catalog import with a root record end, their trace
starts with the one `foundFilesToIndex` event, whose count is the length of the
list handed to `addListOfFiles`, and goes on with the trace of
`addListOfFiles`; for an empty list the trace is `foundFilesToIndex(0)`,
`indexingComplete`. -/
theorem foundFilesToIndex_first (env : CancelRequests) (fs : DirectoryState)
    (dicomDir : DcmDicomDir) (rootRecord : DcmDirectoryRecord) (directoryName dst : QString)
    (d : ctkDICOMIndexerPrivate)
    (hflat : fs.existsDICOMDIR = false) (hroot : dicomDir.rootRecord = some rootRecord) :
    (∃ out, addDirectory env fs directoryName dst d = some out ∧
      out.2 = Event.foundFilesToIndex (fs.iteratedFiles.length : Int) ::
        (addListOfFiles env fs.iteratedFiles directoryName dst
          (handOver env.onFoundFilesToIndex d)).2 ∧
      foundCounts out.2 = [(fs.iteratedFiles.length : Int)] ∧
      (fs.iteratedFiles = [] →
        out.2 = [Event.foundFilesToIndex 0, Event.indexingComplete])) ∧
    (∃ l out, collectInstances rootRecord directoryName = some l ∧
      addDicomdir env dicomDir directoryName dst d = some out ∧
      out.2 = Event.foundFilesToIndex (l.length : Int) ::
        (addListOfFiles env l directoryName dst (handOver env.onFoundFilesToIndex d)).2 ∧
      foundCounts out.2 = [(l.length : Int)] ∧
      (l = [] → out.2 = [Event.foundFilesToIndex 0, Event.indexingComplete])) := by
  have hadd : addDirectory env fs directoryName dst d =
      some ((addListOfFiles env fs.iteratedFiles directoryName dst
          (handOver env.onFoundFilesToIndex d)).1,
        Event.foundFilesToIndex (fs.iteratedFiles.length : Int) ::
          (addListOfFiles env fs.iteratedFiles directoryName dst
            (handOver env.onFoundFilesToIndex d)).2) := by
    simp only [addDirectory, hflat]
    rfl
  constructor
  · refine ⟨_, hadd, rfl, ?_, ?_⟩
    · simp [foundCounts, foundCounts_addListOfFiles]
    · intro he
      simp only [he, addListOfFiles_nil]
      rfl
  · refine ⟨_, _, collectInstances_eq rootRecord directoryName,
      addDicomdir_root env dicomDir rootRecord directoryName dst d hroot, rfl, ?_, ?_⟩
    · simp [foundCounts, foundCounts_addListOfFiles]
    · intro he
      simp only [he, addListOfFiles_nil]
      rfl

/-- Witness for C9: a flat scan of two files, and the import of the small
catalog. -/
theorem foundFilesToIndex_first_witness :
    (∃ out, addDirectory CancelRequests.never flatDirectory "root" "" ⟨false⟩ = some out ∧
      foundCounts out.2 = [2]) ∧
    (∃ out, addDicomdir CancelRequests.never ⟨true, some smallCatalog⟩ "root" "" ⟨false⟩ =
        some out ∧ foundCounts out.2 = [2]) := by
  have h := foundFilesToIndex_first CancelRequests.never flatDirectory ⟨true, some smallCatalog⟩
    smallCatalog "root" "" ⟨false⟩ rfl rfl
  obtain ⟨⟨out1, h1, _, h2, _⟩, ⟨l, out2, hl, h3, _, h4, _⟩⟩ := h
  have hlen : l = ["root/IMG/F1", "root/IMG/F2"] :=
    Option.some.inj (hl.symm.trans (by decide))
  refine ⟨⟨out1, h1, h2⟩, ⟨out2, h3, ?_⟩⟩
  rw [h4, hlen]
  rfl

/-- C10, counterexample: a catalog file that could not be read, for which the
library hands out an empty root record, gives exactly the outcome of a catalog
that was read and is empty: `foundFilesToIndex(0)`, `indexingComplete`, and
nothing that tells the two apart. -/
theorem addDicomdir_unreadable_like_empty :
    addDicomdir CancelRequests.never ⟨false, some (rootRec [])⟩ "root" ""
        ctkDICOMIndexerPrivate.fresh =
      addDicomdir CancelRequests.never ⟨true, some (rootRec [])⟩ "root" ""
        ctkDICOMIndexerPrivate.fresh ∧
    addDicomdir CancelRequests.never ⟨false, some (rootRec [])⟩ "root" ""
        ctkDICOMIndexerPrivate.fresh =
      some (⟨false⟩, [Event.foundFilesToIndex 0, Event.indexingComplete]) := by
  decide

/-- C10, amended: for a catalog file that could not be read, with the root
record without lower-level records that the library hands out for it,
`addDicomdir` returns normally and reports nothing: the trace is
`foundFilesToIndex(0)`, `indexingComplete`, no insert is invoked, `Canceled` is
reset (and is false at the end unless `cancel()` is called from the
`indexingComplete` notification), and the outcome is the one of a catalog that
was read and has the same root record. -/
theorem addDicomdir_unreadable_catalog (env : CancelRequests) (dicomDir : DcmDicomDir)
    (rootRecord : DcmDirectoryRecord) (directoryName dst : QString)
    (d : ctkDICOMIndexerPrivate)
    (_hbad : dicomDir.errorGood = false) (hroot : dicomDir.rootRecord = some rootRecord)
    (hempty : rootRecord.lowerLevelList = []) :
    addDicomdir env dicomDir directoryName dst d =
        some (handOver env.onIndexingComplete ⟨false⟩,
          [Event.foundFilesToIndex 0, Event.indexingComplete]) ∧
      (∀ out, addDicomdir env dicomDir directoryName dst d = some out →
        insertedPaths out.2 = [] ∧ out.1.Canceled = env.onIndexingComplete) ∧
      addDicomdir env dicomDir directoryName dst d =
        addDicomdir env ⟨true, some rootRecord⟩ directoryName dst d := by
  have hlist : (sweepPatients directoryName rootRecord Shadow.initial).listOfInstances = [] := by
    simp [sweepPatients, sweepLoop, hempty, sweep, Shadow.initial, Shadow.get, Shadow.set]
  have h : addDicomdir env dicomDir directoryName dst d =
      some (handOver env.onIndexingComplete ⟨false⟩,
        [Event.foundFilesToIndex 0, Event.indexingComplete]) := by
    rw [addDicomdir_root env dicomDir rootRecord directoryName dst d hroot, hlist]
    rfl
  refine ⟨h, ?_, ?_⟩
  · intro out hout
    rw [h] at hout
    cases hout
    refine ⟨rfl, ?_⟩
    cases env.onIndexingComplete <;> rfl
  · rw [h, addDicomdir_root env ⟨true, some rootRecord⟩ rootRecord directoryName dst d rfl, hlist]
    rfl

/-- Witness for C10: the catalog file could not be read, the library hands out
an empty root record, and the indexer was left cancelled by an earlier call. -/
theorem addDicomdir_unreadable_catalog_witness :
    addDicomdir CancelRequests.never ⟨false, some (rootRec [])⟩ "root" "" ⟨true⟩ =
      some (⟨false⟩, [Event.foundFilesToIndex 0, Event.indexingComplete]) :=
  (addDicomdir_unreadable_catalog CancelRequests.never ⟨false, some (rootRec [])⟩ (rootRec [])
    "root" "" ⟨true⟩ rfl rfl rfl).1

/-! ## Progress values under any cancel requests -/

theorem mem_progressValues (v : Int) :
    ∀ (es : List Event), v ∈ progressValues es ↔ Event.progress v ∈ es
  | [] => by simp [progressValues]
  | e :: es => by
    have ih := mem_progressValues v es
    cases e <;> simp [progressValues, ih]

/-- Whoever cancels, every progress value of the loop is the percentage of a
position of the list. -/
theorem progressValues_foreachFile_mem (env : CancelRequests) (size : Nat) (src dst : QString) :
    ∀ (files : List QString) (i : Nat) (d : ctkDICOMIndexerPrivate) (v : Int),
      v ∈ progressValues (foreachFile env size src dst files i d).2 →
      ∃ j, i ≤ j ∧ j < i + files.length ∧ v = percentOf j size
  | [], _, _, v, h => by simp [foreachFile, progressValues] at h
  | p :: rest, i, d, v, h => by
    simp only [foreachFile, addFile] at h
    split at h
    · simp only [progressValues, List.mem_cons, List.not_mem_nil, or_false] at h
      exact ⟨i, Nat.le_refl i, by simp, h⟩
    · simp only [progressValues, List.cons_append, List.nil_append, List.mem_cons] at h
      rcases h with h | h
      · exact ⟨i, Nat.le_refl i, by simp, h⟩
      · obtain ⟨j, h1, h2, h3⟩ := progressValues_foreachFile_mem env size src dst rest (i + 1) _ v h
        exact ⟨j, by omega, by simp only [List.length_cons]; omega, h3⟩

theorem progressValues_foreachFile_head (env : CancelRequests) (size : Nat) (src dst : QString)
    (p : QString) (rest : List QString) (i : Nat) (d : ctkDICOMIndexerPrivate) :
    (progressValues (foreachFile env size src dst (p :: rest) i d).2).head? =
      some (percentOf i size) := by
  simp only [foreachFile, addFile]
  split <;> simp [progressValues]

theorem count_complete_foreachFile (env : CancelRequests) (size : Nat) (src dst : QString) :
    ∀ (files : List QString) (i : Nat) (d : ctkDICOMIndexerPrivate),
      (foreachFile env size src dst files i d).2.count Event.indexingComplete = 0
  | [], _, _ => rfl
  | p :: rest, i, d => by
    have ih := count_complete_foreachFile env size src dst rest (i + 1)
    simp only [foreachFile, addFile]
    split <;> simp [ih]

theorem percentOf_zero (size : Nat) : percentOf 0 size = 0 := by
  simp [percentOf, toInt32]

/-- While `100 * i` fits into an `int` and `i` is a position of the list, the
percentage lies between 0 and 99. -/
theorem percentOf_le_99 (i size : Nat) (hi : i < size) (h : 100 * i ≤ 2147483647) :
    0 ≤ percentOf i size ∧ percentOf i size ≤ 99 := by
  rw [percentOf_eq_floor i size h]
  have hlt : 100 * i / size < 100 := Nat.div_lt_of_lt_mul (by omega)
  constructor
  · exact Int.ofNat_nonneg _
  · have : ((100 * i / size : Nat) : Int) < 100 := by exact_mod_cast hlt
    omega

/-! ## Replacing the backslash -/

theorem data_replaceBackslash (s : QString) :
    (replaceBackslash s).data =
      s.data.map (fun c => if c = Char.ofNat 92 then Char.ofNat 47 else c) := rfl

theorem replaceBackslash_append (s t : QString) :
    replaceBackslash (s ++ t) = replaceBackslash s ++ replaceBackslash t := by
  apply String.ext
  simp [data_replaceBackslash]

theorem backslash_not_mem_replaceBackslash (s : QString) :
    Char.ofNat 92 ∉ (replaceBackslash s).data := by
  rw [data_replaceBackslash]
  intro h
  obtain ⟨c, _, hc⟩ := List.mem_map.mp h
  by_cases e : c = Char.ofNat 92
  · rw [if_pos e] at hc
    exact absurd hc (by decide)
  · rw [if_neg e] at hc
    exact e hc

theorem replaceBackslash_of_not_mem (s : QString) (h : Char.ofNat 92 ∉ s.data) :
    replaceBackslash s = s := by
  apply String.ext
  rw [data_replaceBackslash]
  conv_rhs => rw [← List.map_id s.data]
  refine List.map_congr_left (fun c hc => ?_)
  have : c ≠ Char.ofNat 92 := fun e => h (e ▸ hc)
  simp [this]

theorem replaceBackslash_idem (s : QString) :
    replaceBackslash (replaceBackslash s) = replaceBackslash s :=
  replaceBackslash_of_not_mem _ (backslash_not_mem_replaceBackslash s)

/-! ## The walk of the code against the reference walk -/

theorem sweep_sublist (lv : Level) (body : DcmDirectoryRecord → Shadow → Shadow)
    (g : DcmDirectoryRecord → List QString)
    (hbody : ∀ r a, ∃ l, (body r a).listOfInstances = a.listOfInstances ++ l ∧
      List.Sublist l (g r)) :
    ∀ (rs : List DcmDirectoryRecord) (a : Shadow),
      ∃ l, (sweep lv body rs a).listOfInstances = a.listOfInstances ++ l ∧
        List.Sublist l ((rs.takeWhile lv.good).flatMap g)
  | [], a => ⟨[], by simp [sweep, Shadow.listOfInstances_set], List.Sublist.refl _⟩
  | r :: rs, a => by
    by_cases hg : lv.good r = true
    · obtain ⟨l1, h1, s1⟩ := hbody r (a.set lv true)
      obtain ⟨l2, h2, s2⟩ := sweep_sublist lv body g hbody rs (body r (a.set lv true))
      refine ⟨l1 ++ l2, ?_, ?_⟩
      · rw [sweep, if_pos hg, h2, h1, Shadow.listOfInstances_set, List.append_assoc]
      · rw [List.takeWhile_cons_of_pos hg, List.flatMap_cons]
        exact List.Sublist.append s1 s2
    · refine ⟨[], ?_, List.nil_sublist _⟩
      rw [sweep, if_neg hg, Shadow.listOfInstances_set, List.append_nil]

theorem sweepLoop_sublist (lv : Level) (body : DcmDirectoryRecord → Shadow → Shadow)
    (g : DcmDirectoryRecord → List QString)
    (hbody : ∀ r a, ∃ l, (body r a).listOfInstances = a.listOfInstances ++ l ∧
      List.Sublist l (g r))
    (rs : List DcmDirectoryRecord) (a : Shadow) :
    ∃ l, (sweepLoop lv body rs a).listOfInstances = a.listOfInstances ++ l ∧
      List.Sublist l ((rs.takeWhile lv.good).flatMap g) := by
  unfold sweepLoop
  split
  · exact ⟨[], by rw [Shadow.listOfInstances_set, List.append_nil], List.nil_sublist _⟩
  · exact sweep_sublist lv body g hbody rs a

/-- The list the loops of `addDicomdir` build is the reference walk with some
paths left out (those of the parents entered with a cursor that an earlier
parent left on an invalid record), in the same order. -/
theorem collectInstances_sublist_reference (rootRecord : DcmDirectoryRecord)
    (directoryName : QString) :
    ∃ l, collectInstances rootRecord directoryName = some l ∧
      List.Sublist l (referenceWalk rootRecord directoryName) := by
  have hfile : ∀ (r : DcmDirectoryRecord) (a : Shadow),
      ∃ l, (appendInstance directoryName r a).listOfInstances = a.listOfInstances ++ l ∧
        List.Sublist l [pathOfFile directoryName r] :=
    fun r a => ⟨[pathOfFile directoryName r], rfl, List.Sublist.refl _⟩
  have hfiles := fun (se : DcmDirectoryRecord) (a : Shadow) =>
    sweepLoop_sublist Level.file (appendInstance directoryName) _ hfile se.lowerLevelList a
  have hseries := fun (st : DcmDirectoryRecord) (a : Shadow) =>
    sweepLoop_sublist Level.series (sweepFiles directoryName) _ hfiles st.lowerLevelList a
  have hstudies := fun (p : DcmDirectoryRecord) (a : Shadow) =>
    sweepLoop_sublist Level.study (sweepSeries directoryName) _ hseries p.lowerLevelList a
  obtain ⟨l, hl, hs⟩ := sweepLoop_sublist Level.patient (sweepStudies directoryName) _ hstudies
    rootRecord.lowerLevelList Shadow.initial
  refine ⟨l, ?_, ?_⟩
  · rw [collectInstances_eq]
    have e : (sweepPatients directoryName rootRecord Shadow.initial).listOfInstances = l := by
      have := hl
      simpa [Shadow.initial] using this
    rw [e]
  · have e : referenceWalk rootRecord directoryName =
        (rootRecord.lowerLevelList.takeWhile Level.patient.good).flatMap fun p =>
          (p.lowerLevelList.takeWhile Level.study.good).flatMap fun st =>
            (st.lowerLevelList.takeWhile Level.series.good).flatMap fun se =>
              (se.lowerLevelList.takeWhile Level.file.good).flatMap fun f =>
                [pathOfFile directoryName f] := by
      simp only [referenceWalk, List.map_eq_flatMap]
      rfl
    rw [e]
    exact hs

/-! ## Termination of the loops -/

/-- A loop that has ended within `fuel` evaluations of its condition gives the
same result with any larger bound. -/
theorem whileNextSub_mono (lv : Level) (parent : RecordPtr)
    (body : RecordPtr → Locals → Option Locals) :
    ∀ (fuel fuel2 : Nat) (v w : Locals),
      whileNextSub lv parent body fuel v = some w → fuel ≤ fuel2 →
      whileNextSub lv parent body fuel2 v = some w
  | 0, _, _, _, h, _ => by simp [whileNextSub] at h
  | fuel + 1, 0, _, _, _, hle => absurd hle (Nat.not_succ_le_zero _)
  | fuel + 1, fuel2 + 1, v, w, h, hle => by
    cases hn : parent.nextSub (v.get lv) with
    | none =>
      rw [whileNextSub_none lv parent body fuel v hn] at h
      rw [whileNextSub_none lv parent body fuel2 v hn]
      exact h
    | some c =>
      by_cases hg : lv.good c.target = true
      · cases hb : body c (v.set lv (some c)) with
        | none => simp [whileNextSub, hn, hg, hb] at h
        | some v2 =>
          rw [whileNextSub_good lv parent body fuel v v2 c hn hg hb] at h
          rw [whileNextSub_good lv parent body fuel2 v v2 c hn hg hb]
          exact whileNextSub_mono lv parent body fuel fuel2 v2 w h (Nat.le_of_succ_le_succ hle)
      · have hg2 : lv.good c.target = false := by simpa using hg
        rw [whileNextSub_bad lv parent body fuel v c hn hg2] at h
        rw [whileNextSub_bad lv parent body fuel2 v c hn hg2]
        exact h

/-- Whatever the cursor, `nextSub` answers `NULL` or a lower-level record of the
parent: the first one for a `NULL` cursor, and the one right after the cursor
for a cursor on a lower-level record of this parent.  No other cursor gets a
record. -/
theorem nextSub_forward (parent : RecordPtr) (cursor : Option RecordPtr) (next : RecordPtr)
    (h : parent.nextSub cursor = some next) :
    ∃ j, next.loc = j :: parent.loc ∧
      parent.target.lowerLevelList[j]? = some next.target ∧
      (cursor = none → j = 0) ∧
      (∀ c, cursor = some c → ∃ i, c.loc = i :: parent.loc ∧ j = i + 1) := by
  cases cursor with
  | none =>
    simp only [RecordPtr.nextSub, nextInContainer, RecordPtr.lowerLevelList] at h
    cases hl : parent.target.lowerLevelList with
    | nil => rw [hl] at h; simp [subPtrs] at h
    | cons r rs =>
      rw [hl] at h
      simp only [subPtrs, List.head?_cons, Option.some.injEq] at h
      subst h
      exact ⟨0, rfl, by simp, fun _ => rfl, fun c hc => (by cases hc)⟩
  | some c =>
    by_cases hchild : ∃ i, c.loc = i :: parent.loc
    · obtain ⟨i, hi⟩ := hchild
      have hdw := dropWhile_subPtrs parent.loc parent.target.lowerLevelList 0 i
      simp only [Nat.zero_add] at hdw
      simp only [RecordPtr.nextSub, nextInContainer, RecordPtr.lowerLevelList, hi, hdw] at h
      cases hd : parent.target.lowerLevelList.drop i with
      | nil => rw [hd] at h; simp [subPtrs] at h
      | cons r0 rs =>
        rw [hd] at h
        cases rs with
        | nil => simp [subPtrs] at h
        | cons r rs2 =>
          simp only [subPtrs, List.drop_succ_cons, List.drop_zero, List.head?_cons,
            Option.some.injEq] at h
          subst h
          refine ⟨i + 1, rfl, ?_, fun hc => (by cases hc), fun c2 hc2 => ?_⟩
          · have := List.getElem?_drop parent.target.lowerLevelList i 1
            rw [hd] at this
            simpa using this.symm
          · cases hc2
            exact ⟨i, hi, rfl⟩
    · have hstale := nextSub_stale parent c (fun j hj => hchild ⟨j, hj⟩)
      rw [hstale] at h
      cases h

/-! ## The claims, continued -/

/-- C11, at the failing input: for a list of 21474838 paths the value computed
for the path at position 21474837 is `-99`: it is not in the range `0..100` and
it is not the floor of `100 * 21474837 / 21474838`, which is `99`. -/
theorem percentOf_wraps :
    percentOf 21474837 21474838 = -99 ∧
      ¬ (0 ≤ percentOf 21474837 21474838) ∧
      percentOf 21474837 21474838 ≠ ((100 * 21474837 / 21474838 : Nat) : Int) := by
  decide

/-- C12, at the failing input: a series whose file loop stops on an invalid
record is followed by a valid series with one valid file record.  The loops
of `addDicomdir` list only the file of the first series: the cursor `fileRecord`
still points into the first series, `nextSub` of the second series answers
`NULL` to it, and the second series is left without its file having been
visited.  The reference walk lists both files. -/
theorem collectInstances_skips_after_stale_cursor :
    collectInstances staleCursorCatalog "root" = some ["root/a"] ∧
      referenceWalk staleCursorCatalog "root" = ["root/a", "root/b"] := by
  decide

/-- C13: for a list of `n` paths with `1 <= n <= 21474836`, whoever cancels and
whenever, the first progress value is 0, every progress value lies between 0
and 99, `progress(100)` is not in the trace, and the trace ends with its only
`indexingComplete`. -/
theorem progress_below_100 (env : CancelRequests) (files : List QString) (src dst : QString)
    (d : ctkDICOMIndexerPrivate) (h1 : 1 ≤ files.length) (h2 : files.length ≤ 21474836) :
    (progressValues (addListOfFiles env files src dst d).2).head? = some 0 ∧
      (∀ v, v ∈ progressValues (addListOfFiles env files src dst d).2 → 0 ≤ v ∧ v ≤ 99) ∧
      Event.progress 100 ∉ (addListOfFiles env files src dst d).2 ∧
      (addListOfFiles env files src dst d).2.getLast? = some Event.indexingComplete ∧
      completeCount (addListOfFiles env files src dst d).2 = 1 := by
  have hvals : ∀ v, v ∈ progressValues (addListOfFiles env files src dst d).2 →
      0 ≤ v ∧ v ≤ 99 := by
    intro v hv
    simp only [addListOfFiles, progressValues_append, progressValues, List.append_nil] at hv
    obtain ⟨j, _, hj, hvj⟩ := progressValues_foreachFile_mem env files.length src dst files 0 _ v hv
    rw [hvj]
    exact percentOf_le_99 j files.length (by omega) (by omega)
  refine ⟨?_, hvals, ?_, ?_, ?_⟩
  · cases files with
    | nil => simp at h1
    | cons p rest =>
      simp only [addListOfFiles, progressValues_append, progressValues, List.append_nil]
      rw [progressValues_foreachFile_head, percentOf_zero]
  · intro hmem
    have := hvals 100 ((mem_progressValues 100 _).mpr hmem)
    omega
  · simp [addListOfFiles]
  · simp [completeCount, addListOfFiles, count_complete_foreachFile]

/-- Witness for C13: three paths, all processed; the values are 0, 33, 66. -/
theorem progress_below_100_witness :
    progressValues (addListOfFiles CancelRequests.never ["a", "b", "c"] "src" "" ⟨false⟩).2 =
        [0, 33, 66] ∧
      Event.progress 100 ∉ (addListOfFiles CancelRequests.never ["a", "b", "c"] "src" ""
        ⟨false⟩).2 :=
  ⟨by decide, (progress_below_100 CancelRequests.never ["a", "b", "c"] "src" "" ⟨false⟩
    (by decide) (by decide)).2.2.1⟩

/-- C14: the path appended for a referenced file is the whole string
`directoryName + "/" + referencedFileName` with every backslash replaced by `/`
(character by character, so also inside `directoryName`); it contains no
backslash, and replacing again leaves it unchanged; the same holds for every
path of the list `addDicomdir` builds. -/
theorem instanceFilePath_normalized (directoryName : QString) (referencedFileName : String) :
    (instanceFilePath directoryName referencedFileName).data =
        (directoryName.data ++ Char.ofNat 47 :: referencedFileName.data).map
          (fun c => if c = Char.ofNat 92 then Char.ofNat 47 else c) ∧
      instanceFilePath directoryName referencedFileName =
        replaceBackslash directoryName ++ "/" ++ replaceBackslash referencedFileName ∧
      Char.ofNat 92 ∉ (instanceFilePath directoryName referencedFileName).data ∧
      replaceBackslash (instanceFilePath directoryName referencedFileName) =
        instanceFilePath directoryName referencedFileName ∧
      (∀ (rootRecord : DcmDirectoryRecord) (l : List QString),
        collectInstances rootRecord directoryName = some l →
        ∀ x, x ∈ l → Char.ofNat 92 ∉ x.data ∧ replaceBackslash x = x) := by
  refine ⟨?_, ?_, backslash_not_mem_replaceBackslash _, replaceBackslash_idem _, ?_⟩
  · simp only [instanceFilePath, data_replaceBackslash, String.data_append, List.append_assoc]
    rfl
  · simp only [instanceFilePath, replaceBackslash_append]
    rfl
  · intro rootRecord l hl x hx
    rw [collectInstances_eq] at hl
    cases hl
    rcases sweepPatients_mem directoryName _ Shadow.initial x hx with h | h
    · simp [Shadow.initial] at h
    · obtain ⟨_, _, _, _, _, _, _, _, _, f, _, _, hxf⟩ := h
      rw [hxf, pathOfFile]
      exact ⟨backslash_not_mem_replaceBackslash _, replaceBackslash_idem _⟩

/-- Witness for C14: a directory name and a referenced file that both contain a
backslash. -/
theorem instanceFilePath_normalized_witness :
    instanceFilePath ("C:" ++ backslash ++ "data") ("IMG" ++ backslash ++ "F1") =
        "C:/data/IMG/F1" ∧
      replaceBackslash (instanceFilePath ("C:" ++ backslash ++ "data")
          ("IMG" ++ backslash ++ "F1")) =
        instanceFilePath ("C:" ++ backslash ++ "data") ("IMG" ++ backslash ++ "F1") :=
  ⟨by decide,
    (instanceFilePath_normalized ("C:" ++ backslash ++ "data")
      ("IMG" ++ backslash ++ "F1")).2.2.2.1⟩

/-- C15: for every catalog the four nested loops of `addDicomdir` end: every
loop ends within one evaluation of its condition more than its parent has
lower-level records, a larger bound gives the same result, and `addDicomdir`
returns.  Every record that `nextSub` answers is a lower-level record of the
parent, the first one for a `NULL` cursor and the one right after the cursor
otherwise; a cursor that is not on a lower-level record of the parent, such as
one left on a record of a previous parent, gets `NULL`. -/
theorem addDicomdir_loops_terminate (rootRecord : DcmDirectoryRecord)
    (directoryName : QString) :
    (∃ v, patientLoop directoryName ⟨[], rootRecord⟩ Locals.initial = some v) ∧
      (∀ (env : CancelRequests) (errorGood : Bool) (dst : QString) (d : ctkDICOMIndexerPrivate),
        ∃ out, addDicomdir env ⟨errorGood, some rootRecord⟩ directoryName dst d = some out) ∧
      (∀ (lv : Level) (parent : RecordPtr) (body : RecordPtr → Locals → Option Locals)
        (fuel fuel2 : Nat) (v w : Locals),
        whileNextSub lv parent body fuel v = some w → fuel ≤ fuel2 →
        whileNextSub lv parent body fuel2 v = some w) ∧
      (∀ (parent : RecordPtr) (cursor : Option RecordPtr) (next : RecordPtr),
        parent.nextSub cursor = some next →
        ∃ j, next.loc = j :: parent.loc ∧
          parent.target.lowerLevelList[j]? = some next.target ∧
          (cursor = none → j = 0) ∧
          (∀ c, cursor = some c → ∃ i, c.loc = i :: parent.loc ∧ j = i + 1)) ∧
      (∀ (parent : RecordPtr) (c : RecordPtr),
        (∀ j, c.loc ≠ j :: parent.loc) → parent.nextSub (some c) = none) := by
  refine ⟨?_, ?_, whileNextSub_mono, nextSub_forward, nextSub_stale⟩
  · obtain ⟨w, hw, _⟩ := patientLoop_spec directoryName ⟨[], rootRecord⟩ Locals.initial
      (clear_initial [])
    exact ⟨w, hw⟩
  · intro env errorGood dst d
    exact ⟨_, addDicomdir_root env ⟨errorGood, some rootRecord⟩ rootRecord directoryName dst d rfl⟩

/-- Witness for C15: the loops end on the catalog in which the file loop of the
first series stops on an invalid record, and the cursor left there gets `NULL`
from the second series. -/
theorem addDicomdir_loops_terminate_witness :
    (∃ v, patientLoop "root" ⟨[], staleCursorCatalog⟩ Locals.initial = some v) ∧
      RecordPtr.nextSub ⟨[1, 0, 0], seriesRec "1.2.1.2" [fileRec "1.2.1.2.1" "b"]⟩
        (some ⟨[1, 0, 0, 0], blankRec []⟩) = none :=
  have h := addDicomdir_loops_terminate staleCursorCatalog "root"
  ⟨h.1, h.2.2.2.2 ⟨[1, 0, 0], seriesRec "1.2.1.2" [fileRec "1.2.1.2.1" "b"]⟩
    ⟨[1, 0, 0, 0], blankRec []⟩ (fun j hj => by simp at hj)⟩

end CTK
